import Mathlib

/-!
# Verification of the sqlite-cache engine specification

Shallow embedding of the Go cache engine (`src/cache/*.go`, `src/api/api.go`)
of the `sqlite-cache` repository, together with proofs and refutations of the
specification's claims.

Modelling conventions:
* Go strings are modelled as `List Char` (`GoStr`); the Go code slices keys
  byte-wise, which for the component strings at issue coincides with
  character-wise slicing.
* Byte blobs (`[]byte` / sqlite BLOB) are `List Nat`.
* The sqlite `cache` table of one cache file is a list of rows in rowid
  (insertion) order, exactly mirroring the schema created by
  `CacheManager.createTables`: `id INTEGER PRIMARY KEY AUTOINCREMENT`,
  `bind TEXT NOT NULL`, `content BLOB NOT NULL`, `last_accessed`, with
  *non-unique* indices `idx_bind` and `idx_last_accessed`.
* `cap : ℚ` stands for the Go `float64` configuration value (exact-arithmetic
  idealization); `0.95` is `mkRat 19 20`.
* The filesystem is an association list of tenant directories keyed by
  `(baseDir, table, tenant)`; each directory is a list of entries.
  A log of closed database handles records every `db.Close()` call.
* Filesystem faults that the code distinguishes (a failing `os.ReadDir`,
  failing `os.Remove` calls) are injected through an explicit `FsFault`
  parameter; the fault-free instantiation is `noFault`.
-/

/-- Go strings (byte/character sequences). -/
abbrev GoStr := List Char

/-- Byte blobs (`[]byte`). -/
abbrev Bytes := List Nat

/-- The `".db"` suffix appended to freshness tokens by `getDBPath` and
stripped by `cleanupOldCacheFiles` (`strings.TrimSuffix(fileName, ".db")`). -/
def dbSuffix : GoStr := ['.', 'd', 'b']

/-- One row of the sqlite `cache` table: `(id, bind, content, last_accessed)`.
`id` is the `AUTOINCREMENT` primary key (the rowid). -/
structure Row where
  id : Nat
  bind : GoStr
  content : Bytes
  lastAccessed : Int
deriving DecidableEq

/-- The `cache` table of one cache file: rows in rowid order plus the next
autoincrement id.  The schema has no UNIQUE constraint on `bind` (only the
non-unique index `idx_bind`). -/
structure CacheTable where
  rows : List Row := []
  nextId : Nat := 1
deriving DecidableEq

/-- `INSERT OR REPLACE INTO cache (bind, content, last_accessed) VALUES (?,?,?)`
from `CacheManager.Set`.  Because the schema created by `createTables` has no
UNIQUE constraint on `bind` (the only uniqueness is the autoincrement `id`,
which is freshly assigned), the `OR REPLACE` conflict clause can never fire:
the statement is a plain insert appending a new row. -/
def cacheInsertOrReplace (t : CacheTable) (bind : GoStr) (content : Bytes)
    (now : Int) : CacheTable :=
  { rows := t.rows ++ [⟨t.nextId, bind, content, now⟩], nextId := t.nextId + 1 }

/-- `UPDATE cache SET last_accessed = ? WHERE bind = ? RETURNING content`
executed through `db.QueryRow(...).Scan(&content)` in `CacheManager.Get`.
SQLite runs the whole update before emitting RETURNING rows, scanning the
matching rows via `idx_bind` in `(bind, rowid)` order; `QueryRow` keeps the
first returned row.  Result: `none` models `sql.ErrNoRows`. -/
def cacheUpdateReturning (t : CacheTable) (bind : GoStr) (now : Int) :
    Option Bytes × CacheTable :=
  (((t.rows.filter (fun r => r.bind = bind)).head?).map Row.content,
   { t with
      rows := t.rows.map fun r =>
        if r.bind = bind then { r with lastAccessed := now } else r })

/-- `SELECT COUNT(*) FROM cache`. -/
def cacheCount (t : CacheTable) : Nat := t.rows.length

/-- The sort key of `ORDER BY last_accessed ASC`: `last_accessed`, with the
rowid `id` as the tie-break (sqlite scans `idx_last_accessed`, whose entries
are ordered by `(last_accessed, rowid)`). -/
def rowLE (a b : Row) : Bool :=
  decide (a.lastAccessed < b.lastAccessed ∨
    (a.lastAccessed = b.lastAccessed ∧ a.id ≤ b.id))

/-- `SELECT id FROM cache ORDER BY last_accessed ASC LIMIT d`: the ids of the
`d` rows least in `(last_accessed, rowid)` order. -/
def orderByLimitIds (rows : List Row) (d : Nat) : List Nat :=
  ((rows.mergeSort rowLE).take d).map Row.id

/-- Go's `int(x)` conversion applied to a non-negative `float64` product
(`keepCount := int(float64(totalCount) * cm.config.Cap)`): truncation toward
zero, i.e. `Int.tdiv` of the rational's numerator by its denominator. -/
def goInt (q : ℚ) : Int := q.num.tdiv q.den

/-- `CacheManager.lruCleanup`: count the rows, keep
`int(float64(totalCount) * cap)` of them, and if the number to delete is
positive, `DELETE FROM cache WHERE id IN (SELECT id FROM cache ORDER BY
last_accessed ASC LIMIT deleteCount)` followed by `VACUUM` (which does not
change the row set). -/
def lruCleanup (cap : ℚ) (t : CacheTable) : CacheTable :=
  let totalCount : Nat := cacheCount t
  let keepCount : Int := goInt ((totalCount : ℚ) * cap)
  let deleteCount : Int := (totalCount : Int) - keepCount
  if deleteCount ≤ 0 then t
  else
    let victims := orderByLimitIds t.rows deleteCount.toNat
    { t with rows := t.rows.filter (fun r => ¬ victims.contains r.id) }

/-- `CacheManager.enforceSize`: stat the database file; if
`float64(size)/(1024*1024) > float64(maxSize)` run `lruCleanup`, else do
nothing.  The comparison is stated in exact integer arithmetic
(`size > maxSize * 1024 * 1024`), which is equivalent to the float
comparison of the source for the file sizes at issue. -/
def enforceSize (maxSize : Int) (cap : ℚ) (fileSize : Nat) (t : CacheTable) :
    CacheTable :=
  if (fileSize : Int) > maxSize * 1024 * 1024 then lruCleanup cap t else t

/-- Error outcomes of the manager operations, following the spec's taxonomy
and the error strings of the Go code:
`cacheNotFound` = "cache not found" (file missing, a Miss);
`entryNotFound` = "cache entry not found" (row missing, a Miss);
`cleanupFailed` = "failed to cleanup old cache files: ..." (wrapped sweep
error); `invalidArgument` = "cap must be between 0 and 0.95";
`notInitialized` = "cache manager not initialized". -/
inductive CErr where
  | cacheNotFound
  | entryNotFound
  | cleanupFailed
  | invalidArgument
  | notInitialized
deriving DecidableEq

deriving instance DecidableEq for Except

/-- One entry of a tenant directory, as seen by `os.ReadDir`: a name, a
directory flag, and — for regular files — the cache table stored in the file
(`none` for a file that is not an initialized cache database, e.g. an empty
file; `CREATE TABLE IF NOT EXISTS` turns it into the empty table on open). -/
structure FileEnt where
  name : GoStr
  isDir : Bool := false
  db : Option CacheTable := none
deriving DecidableEq

/-- A tenant directory is addressed by `(baseDir, table, tenant)`:
the components of `filepath.Join(cm.config.BaseDir, table, tenantID)`. -/
abbrev DirKey := GoStr × GoStr × GoStr

/-- The filesystem (the tenant directories under all base directories) plus a
log of every `db.Close()` performed on a handle, in order. -/
structure World where
  fs : List (DirKey × List FileEnt) := []
  closed : List GoStr := []
deriving DecidableEq

/-- Look a tenant directory up; `none` models `os.IsNotExist`. -/
def fsFind (w : World) (k : DirKey) : Option (List FileEnt) :=
  (w.fs.find? fun p => decide (p.1 = k)).map Prod.snd

/-- Write a tenant directory back (creating it if absent, as `os.MkdirAll`
does). -/
def fsSet (w : World) (k : DirKey) (d : List FileEnt) : World :=
  if (w.fs.find? fun p => decide (p.1 = k)).isSome then
    { w with fs := w.fs.map fun p => if p.1 = k then (k, d) else p }
  else
    { w with fs := w.fs ++ [(k, d)] }

/-- `CacheConfig` (`types.go`): `BaseDir`, `MaxSize` (MB, Go `int`),
`Cap` (fraction kept by the LRU cull).  Defaults are Go zero values. -/
structure CacheConfig where
  baseDir : GoStr := []
  maxSize : Int := 0
  cap : ℚ := 0
deriving DecidableEq

/-- `CacheManager` (`types.go`): the configuration and the handle table
`dbs map[string]*sql.DB`, modelled by the list of its keys in insertion
order.  (The `sync.RWMutex` makes every operation atomic; the model is the
resulting sequential semantics.) -/
structure CacheManager where
  config : CacheConfig := {}
  dbs : List GoStr := []
deriving DecidableEq

/-- `CacheManager.getDBKey`: `fmt.Sprintf("%s:%s:%s", table, tenantID,
freshness)`. -/
def CacheManager.getDBKey (table tenantID freshness : GoStr) : GoStr :=
  table ++ [':'] ++ tenantID ++ [':'] ++ freshness

/-- The file name `fmt.Sprintf("%s.db", freshness)` used by `getDBPath`. -/
def dbFileName (freshness : GoStr) : GoStr := freshness ++ dbSuffix

/-- `strings.HasSuffix(fileName, ".db")`. -/
def hasDbSuffix (name : GoStr) : Bool := decide (dbSuffix <:+ name)

/-- `strings.TrimSuffix(fileName, ".db")`. -/
def trimDbSuffix (name : GoStr) : GoStr :=
  if dbSuffix <:+ name then name.take (name.length - dbSuffix.length) else name

/-- Injected filesystem faults: `readDirErr` makes `os.ReadDir` on an
*existing* tenant directory fail with a non-`IsNotExist` error;
`removeFails name` makes `os.Remove` of the named file fail (the file
survives).  `noFault` is the fault-free filesystem. -/
structure FsFault where
  readDirErr : Bool := false
  removeFails : GoStr → Bool := fun _ => false

/-- The fault-free filesystem. -/
def noFault : FsFault := {}

/-- The entry loop of `CacheManager.cleanupOldCacheFiles`, over the listed
directory entries.  For each entry: directories and names without the `.db`
suffix are skipped; an entry whose trimmed freshness differs from
`currentFreshness` has its handle evicted (closed and removed from `dbs`)
and is `os.Remove`d — the `os.Remove` error value is discarded by the code,
so a failed removal leaves the file in place but neither aborts the loop nor
surfaces.  Returns the updated handle keys, close log, and the entries that
remain in the directory. -/
def sweepEntries (flt : FsFault) (table tenantID currentFreshness : GoStr) :
    List GoStr → List GoStr → List FileEnt →
    List GoStr × List GoStr × List FileEnt
  | dbs, closed, [] => (dbs, closed, [])
  | dbs, closed, e :: es =>
    if e.isDir ∨ ¬ (dbSuffix <:+ e.name) ∨
        trimDbSuffix e.name = currentFreshness then
      let r := sweepEntries flt table tenantID currentFreshness dbs closed es
      (r.1, r.2.1, e :: r.2.2)
    else
      let dbKey := CacheManager.getDBKey table tenantID (trimDbSuffix e.name)
      let dbs' := if dbKey ∈ dbs then dbs.erase dbKey else dbs
      let closed' := if dbKey ∈ dbs then closed ++ [dbKey] else closed
      let r := sweepEntries flt table tenantID currentFreshness dbs' closed' es
      if flt.removeFails e.name then (r.1, r.2.1, e :: r.2.2)
      else (r.1, r.2.1, r.2.2)

/-- `CacheManager.cleanupOldCacheFiles`: list the tenant directory (a missing
directory is a success and a no-op; any other `ReadDir` failure is returned),
then run the entry loop.  The result is `.ok ()` whenever the directory
listing succeeded — individual `os.Remove` errors are ignored. -/
def CacheManager.cleanupOldCacheFiles (flt : FsFault) (cm : CacheManager)
    (w : World) (table tenantID currentFreshness : GoStr) :
    (CacheManager × World) × Except Unit Unit :=
  let dk : DirKey := (cm.config.baseDir, table, tenantID)
  match fsFind w dk with
  | none => ((cm, w), Except.ok ())
  | some entries =>
    if flt.readDirErr then ((cm, w), Except.error ())
    else
      let r := sweepEntries flt table tenantID currentFreshness cm.dbs
        w.closed entries
      (({ cm with dbs := r.1 }, fsSet { w with closed := r.2.1 } dk r.2.2),
        Except.ok ())

/-- `CacheManager.openDB`: return the cached handle if present; otherwise
`os.MkdirAll` the tenant directory, `sql.Open` (creating the file when
absent), apply the pragmas, `createTables` (`CREATE TABLE IF NOT EXISTS` —
an already-present cache table is kept as-is, a fresh or empty file gets the
empty table), and remember the handle under its key. -/
def CacheManager.openDB (cm : CacheManager) (w : World)
    (table tenantID freshness : GoStr) : CacheManager × World :=
  let dbKey := CacheManager.getDBKey table tenantID freshness
  if dbKey ∈ cm.dbs then (cm, w)
  else
    let dk : DirKey := (cm.config.baseDir, table, tenantID)
    let dir := (fsFind w dk).getD []
    let fname := dbFileName freshness
    let dir' :=
      if dir.any fun e => decide (e.name = fname) then
        dir.map fun e =>
          if e.name = fname then { e with db := some (e.db.getD {}) } else e
      else dir ++ [{ name := fname, isDir := false, db := some {} }]
    ({ cm with dbs := cm.dbs ++ [dbKey] }, fsSet w dk dir')

/-- Read the cache table of the file `freshness.db` in the tenant directory
(used after `openDB` guaranteed it exists and is initialized). -/
def fileTable (w : World) (dk : DirKey) (freshness : GoStr) : CacheTable :=
  match (((fsFind w dk).getD []).find? fun e =>
      decide (e.name = dbFileName freshness)) with
  | some e => e.db.getD {}
  | none => {}

/-- Write the cache table of the file `freshness.db` back. -/
def writeFileTable (w : World) (dk : DirKey) (freshness : GoStr)
    (t : CacheTable) : World :=
  match fsFind w dk with
  | none => w
  | some dir =>
    fsSet w dk (dir.map fun e =>
      if e.name = dbFileName freshness then { e with db := some t } else e)

/-- `os.Stat(dbPath)` existence check: some entry of the tenant directory
bears the file name (a directory of that name also makes `os.IsNotExist`
false). -/
def fileExists (w : World) (dk : DirKey) (freshness : GoStr) : Bool :=
  ((fsFind w dk).getD []).any fun e => decide (e.name = dbFileName freshness)

/-- `CacheManager.Get` (operations.go): under the read lock, stat the cache
file; if absent, run `cleanupOldCacheFiles` — returning its error wrapped if
it fails — and fail with "cache not found"; otherwise open the handle and run
the touch-and-read `UPDATE ... RETURNING`, with `sql.ErrNoRows` surfaced as
"cache entry not found". -/
def CacheManager.Get (flt : FsFault) (now : Int) (cm : CacheManager)
    (w : World) (table tenantID freshness bind : GoStr) :
    (CacheManager × World) × Except CErr Bytes :=
  let dk : DirKey := (cm.config.baseDir, table, tenantID)
  if fileExists w dk freshness then
    let cmw := cm.openDB w table tenantID freshness
    let rt := cacheUpdateReturning (fileTable cmw.2 dk freshness) bind now
    let w'' := writeFileTable cmw.2 dk freshness rt.2
    match rt.1 with
    | none => ((cmw.1, w''), Except.error CErr.entryNotFound)
    | some c => ((cmw.1, w''), Except.ok c)
  else
    let s := cm.cleanupOldCacheFiles flt w table tenantID freshness
    match s.2 with
    | Except.error _ => (s.1, Except.error CErr.cleanupFailed)
    | Except.ok _ => (s.1, Except.error CErr.cacheNotFound)

/-- `CacheManager.Set` (operations.go): under the write lock, if the cache
file does not exist run `cleanupOldCacheFiles` (its error aborts the Set);
then open the handle (creating the file if needed), run `enforceSize` with
the statted file size, and execute the
`INSERT OR REPLACE INTO cache (bind, content, last_accessed)` statement.
`sizeOf` supplies the byte size `os.Stat` reports for a file holding a given
table. -/
def CacheManager.Set (flt : FsFault) (sizeOf : CacheTable → Nat) (now : Int)
    (cm : CacheManager) (w : World)
    (table tenantID freshness bind : GoStr) (content : Bytes) :
    (CacheManager × World) × Except CErr Unit :=
  let dk : DirKey := (cm.config.baseDir, table, tenantID)
  let afterClean :=
    if fileExists w dk freshness then ((cm, w), Except.ok ())
    else cm.cleanupOldCacheFiles flt w table tenantID freshness
  match afterClean.2 with
  | Except.error _ => (afterClean.1, Except.error CErr.cleanupFailed)
  | Except.ok _ =>
    let cmw := afterClean.1.1.openDB afterClean.1.2 table tenantID freshness
    let t := fileTable cmw.2 dk freshness
    let t1 := enforceSize cmw.1.config.maxSize cmw.1.config.cap (sizeOf t) t
    let t2 := cacheInsertOrReplace t1 bind content now
    ((cmw.1, writeFileTable cmw.2 dk freshness t2), Except.ok ())

/-- The eviction condition of `CacheManager.Delete` on one handle key:
`len(key) > len(table) && key[:len(table)] == table && key[len(table)] == ':'`. -/
def goEvictCond (key table : GoStr) : Bool :=
  decide (table.length < key.length ∧ key.take table.length = table ∧
    key[table.length]? = some ':')

/-- `CacheManager.Delete` (operations.go): close and drop every handle whose
key satisfies the eviction condition (in table order), then
`os.RemoveAll(filepath.Join(BaseDir, table))` — every tenant directory under
the table directory disappears; a missing directory is a success. -/
def CacheManager.Delete (cm : CacheManager) (w : World) (table : GoStr) :
    (CacheManager × World) × Except CErr Unit :=
  let evicted := cm.dbs.filter fun k => goEvictCond k table
  let cm' := { cm with dbs := cm.dbs.filter fun k => ¬ goEvictCond k table }
  let w' : World :=
    { fs := w.fs.filter fun p =>
        ¬ (p.1.1 = cm.config.baseDir ∧ p.1.2.1 = table),
      closed := w.closed ++ evicted }
  ((cm', w'), Except.ok ())

/-- `CacheManager.Init` (manager.go): reject `cap < 0 || cap > 0.95` with the
"cap must be between 0 and 0.95" error *before* installing the configuration;
otherwise install `{BaseDir, MaxSize, Cap}` and `os.MkdirAll` the base
directory (which leaves the tenant-directory map unchanged). -/
def CacheManager.Init (cm : CacheManager) (baseDir : GoStr) (maxSize : Int)
    (cap : ℚ) : CacheManager × Except CErr Unit :=
  if cap < 0 ∨ cap > mkRat 19 20 then (cm, Except.error CErr.invalidArgument)
  else ({ cm with config := ⟨baseDir, maxSize, cap⟩ }, Except.ok ())

/-- `cache.NewCacheManager(config)`: a manager with the given configuration
and an empty handle table. -/
def NewCacheManager (config : CacheConfig) : CacheManager :=
  { config := config, dbs := [] }

/-- The state of the `api` package: the `globalCacheManager` pointer
(`none` = nil) together with the outside world. -/
structure ApiState where
  global : Option CacheManager := none
  w : World := {}

namespace api

/-- `api.Init`: unconditionally replace `globalCacheManager` by
`cache.NewCacheManager(cache.CacheConfig{})` and only then call
`CacheManager.Init`, whose error is propagated — but the replacement
stands either way, and no handle of the previous manager is closed. -/
def Init (s : ApiState) (baseDir : GoStr) (maxSize : Int) (cap : ℚ) :
    ApiState × Except CErr Unit :=
  let cm0 := NewCacheManager {}
  let (cm1, r) := cm0.Init baseDir maxSize cap
  ({ s with global := some cm1 }, r)

/-- `api.Get`: fail with "cache manager not initialized" when the global
manager is nil, else delegate to `CacheManager.Get`. -/
def Get (flt : FsFault) (now : Int) (s : ApiState)
    (table tenantID freshness bind : GoStr) : ApiState × Except CErr Bytes :=
  match s.global with
  | none => (s, Except.error CErr.notInitialized)
  | some cm =>
    let ((cm', w'), r) := cm.Get flt now s.w table tenantID freshness bind
    (⟨some cm', w'⟩, r)

/-- `api.Set`: fail with "cache manager not initialized" when the global
manager is nil, else delegate to `CacheManager.Set`. -/
def Set (flt : FsFault) (sizeOf : CacheTable → Nat) (now : Int)
    (s : ApiState) (table tenantID freshness bind : GoStr)
    (content : Bytes) : ApiState × Except CErr Unit :=
  match s.global with
  | none => (s, Except.error CErr.notInitialized)
  | some cm =>
    let ((cm', w'), r) :=
      cm.Set flt sizeOf now s.w table tenantID freshness bind content
    (⟨some cm', w'⟩, r)

/-- `api.Delete`: fail with "cache manager not initialized" when the global
manager is nil, else delegate to `CacheManager.Delete`. -/
def Delete (s : ApiState) (table : GoStr) : ApiState × Except CErr Unit :=
  match s.global with
  | none => (s, Except.error CErr.notInitialized)
  | some cm =>
    let ((cm', w'), r) := cm.Delete s.w table
    (⟨some cm', w'⟩, r)

end api

/-- One client call against the `api` package (the sequential histories the
manager's reader/writer lock admits), with the ambient inputs — clock value
and statted file size — recorded in the operation.  All operations run on
the fault-free filesystem. -/
inductive Op where
  | init (baseDir : GoStr) (maxSize : Int) (cap : ℚ)
  | get (now : Int) (table tenantID freshness bind : GoStr)
  | set (sizeOf : CacheTable → Nat) (now : Int)
      (table tenantID freshness bind : GoStr) (content : Bytes)
  | del (table : GoStr)

/-- The state reached after one operation (its result discarded). -/
def apiStep (s : ApiState) : Op → ApiState
  | Op.init b m c => (api.Init s b m c).1
  | Op.get now t te f b => (api.Get noFault now s t te f b).1
  | Op.set sz now t te f b c => (api.Set noFault sz now s t te f b c).1
  | Op.del t => (api.Delete s t).1

/-- The state reached from the fresh process state by a sequence of calls. -/
def runOps (ops : List Op) : ApiState := ops.foldl apiStep {}

/-- One step of `filepath.Clean` on a relative path held as components:
`".."` pops the previous component when one is there to pop (this is how a
`".."` key component escapes the directory above it). -/
def cleanStep (acc : List GoStr) (c : GoStr) : List GoStr :=
  if c = ['.', '.'] then
    if acc = [] ∨ acc.getLast? = some ['.', '.'] then acc ++ [c]
    else acc.dropLast
  else acc ++ [c]

/-- `filepath.Join` of non-empty components: concatenate, then `Clean`. -/
def filepathJoin (comps : List GoStr) : List GoStr := comps.foldl cleanStep []

/-- `CacheManager.getDBPath`: `filepath.Join(BaseDir, table, tenantID,
freshness + ".db")`, with the base directory as one component. -/
def CacheManager.getDBPath (cm : CacheManager)
    (table tenantID freshness : GoStr) : List GoStr :=
  filepathJoin [cm.config.baseDir, table, tenantID, dbFileName freshness]

/-- A path lies under a base directory when the base is a proper prefix of
its component list. -/
def underBase (base : GoStr) (p : List GoStr) : Prop := [base] <+: p

/-! ## Concrete scenario shared by the round-trip and upsert claims -/

/-- A stat oracle for files far below the size ceiling (size enforcement
stays inactive). -/
def sizeZero : CacheTable → Nat := fun _ => 0

/-- `INIT ./cache 10 0.5`. -/
def demoInit : ApiState := (api.Init {} "cache".data 10 (mkRat 1 2)).1

/-- ... then `SET users t1 f1 k1 \x7b65\x7d`. -/
def demoSet1 : ApiState :=
  (api.Set noFault sizeZero 1 demoInit "users".data "t1".data "f1".data
    "k1".data [65]).1

/-- ... then `SET users t1 f1 k1 \x7b66\x7d` — a second Set of the same bind. -/
def demoSet2 : ApiState :=
  (api.Set noFault sizeZero 2 demoSet1 "users".data "t1".data "f1".data
    "k1".data [66]).1

instance (base : GoStr) (p : List GoStr) : Decidable (underBase base p) :=
  inferInstanceAs (Decidable ([base] <+: p))

/-- A manager initialized with base directory `cache` (for the path-escape
scenarios). -/
def cmCache : CacheManager := { config := { baseDir := "cache".data } }

/-- An api state whose previously installed manager holds an open handle
(for the re-`Init` scenario). -/
def prevState : ApiState :=
  { global := some ⟨⟨"old".data, 10, mkRat 1 2⟩, ["old:t1:f1".data]⟩, w := {} }

/-- The condition under which the sweep loop leaves a directory entry alone:
a subdirectory, a name without the `.db` suffix, or the current freshness. -/
def keepEntry (cur : GoStr) (e : FileEnt) : Bool :=
  decide (e.isDir = true ∨ ¬ (dbSuffix <:+ e.name) ∨ trimDbSuffix e.name = cur)

/-- A tenant directory holding one stale cache file `f2.db`. -/
def staleDir : List FileEnt := [{ name := "f2.db".data, db := some {} }]

/-- A world in which `cache/users/t1` contains only the stale `f2.db`. -/
def wStale : World :=
  { fs := [(("cache".data, "users".data, "t1".data), staleDir)] }

/-- A filesystem on which unlinking `f2.db` fails. -/
def fltRemoveFail : FsFault :=
  { removeFails := fun n => decide (n = "f2.db".data) }

/-- A filesystem on which listing an existing tenant directory fails. -/
def fltReadDirFail : FsFault := { readDirErr := true }

/-- A manager with open handles for tables `foo` and `foobar`
(for the Delete prefix-guard scenario). -/
def cmFoo : CacheManager :=
  { config := { baseDir := "cache".data },
    dbs := ["foo:t:f".data, "foobar:t:f".data] }

/-- A four-row cache table with two least-recently-accessed rows
(for the LRU cull scenario). -/
def lruDemoTable : CacheTable :=
  { rows := [⟨1, "a".data, [1], 10⟩, ⟨2, "b".data, [2], 5⟩,
      ⟨3, "c".data, [3], 10⟩, ⟨4, "d".data, [4], 7⟩],
    nextId := 5 }

/-- Well-formedness of a tenant directory as the manager maintains it: it is
empty, or holds exactly one regular `<freshness>.db` cache file. -/
def DirWF (dir : List FileEnt) : Prop :=
  dir = [] ∨ ∃ f db, dir = [⟨dbFileName f, false, some db⟩]

/-- Well-formedness of the whole filesystem: every tenant directory is
well-formed. -/
def WorldWF (w : World) : Prop := ∀ p ∈ w.fs, DirWF p.2

/-- The staleness invariant of one tenant directory with respect to the
current freshness `f`: every entry is a regular file whose `.db` name
encodes `f` itself, and at most one file named `f.db` exists. -/
def staleFree (w : World) (base t te f : GoStr) : Prop :=
  ∀ dir, fsFind w (base, t, te) = some dir →
    (∀ e ∈ dir, e.isDir = false ∧
      (dbSuffix <:+ e.name → trimDbSuffix e.name = f)) ∧
    (dir.filter fun e => decide (e.name = dbFileName f)).length ≤ 1

/-- A two-call client history: `INIT ./cache 10 0.5`, then a `Set` at
freshness `f1` (for the freshness-rotation scenario). -/
def demoOps : List Op :=
  [Op.init "cache".data 10 (mkRat 1 2),
   Op.set sizeZero 1 "users".data "t1".data "f1".data "k".data [65]]

/-- C1: the claimed set-then-get byte-exact round trip fails on the code.
After `set(users,t1,f1,k1,[65])` and then `set(users,t1,f1,k1,[66])` — both
successful — `get(users,t1,f1,k1)` returns `[65]`, the bytes of the *first*
Set, not the bytes `[66]` most recently written: the `INSERT OR REPLACE`
never replaces (no UNIQUE constraint on `bind`), both rows persist, and the
`UPDATE ... RETURNING` read through `QueryRow` yields the oldest row. -/
theorem claim1_roundtrip_fails :
    (api.Set noFault sizeZero 2 demoSet1 "users".data "t1".data "f1".data
      "k1".data [66]).2 = Except.ok () ∧
    (api.Get noFault 3 demoSet2 "users".data "t1".data "f1".data
      "k1".data).2 = Except.ok [65] ∧
    ([65] : Bytes) ≠ [66] := by decide

/-- C2: the claimed upsert fails on the code.  After two successful Sets of
the same `(table, tenant, freshness, bind)` the cache file holds *two* rows
for that bind — `[65]` and `[66]` — not one row with the most recent
content: the schema has no uniqueness on `bind`, so `INSERT OR REPLACE`
always inserts. -/
theorem claim2_upsert_fails :
    (((fileTable demoSet2.w ("cache".data, "users".data, "t1".data)
        "f1".data).rows.filter fun r => decide (r.bind = "k1".data)).map
      Row.content) = [[65], [66]] ∧
    (((fileTable demoSet2.w ("cache".data, "users".data, "t1".data)
        "f1".data).rows.filter fun r => decide (r.bind = "k1".data)).length
      = 2) ∧ 2 ≠ 1 := by decide

/-- `CacheManager.Get` can only return "cache not found", the wrapped sweep
error, "cache entry not found", or content — there is no other exit. -/
theorem get_result_spec (flt : FsFault) (now : Int) (cm : CacheManager)
    (w : World) (t te f b : GoStr) :
    (cm.Get flt now w t te f b).2 = Except.error CErr.cacheNotFound ∨
    (cm.Get flt now w t te f b).2 = Except.error CErr.cleanupFailed ∨
    (cm.Get flt now w t te f b).2 = Except.error CErr.entryNotFound ∨
    ∃ c, (cm.Get flt now w t te f b).2 = Except.ok c := by
  unfold CacheManager.Get
  by_cases h : fileExists w (cm.config.baseDir, t, te) f
  · simp only [h, if_true]
    rcases hr : (cacheUpdateReturning
        (fileTable (cm.openDB w t te f).2 (cm.config.baseDir, t, te) f) b
        now).1 with _ | c
    · simp [hr]
    · simp [hr]
  · simp only [eq_false h, if_false]
    rcases hr : (cm.cleanupOldCacheFiles flt w t te f).2 with _ | _
    · simp [hr]
    · simp [hr]

/-- `CacheManager.Set` either fails on the sweep or succeeds. -/
theorem set_result_spec (flt : FsFault) (sz : CacheTable → Nat) (now : Int)
    (cm : CacheManager) (w : World) (t te f b : GoStr) (c : Bytes) :
    (cm.Set flt sz now w t te f b c).2 = Except.error CErr.cleanupFailed ∨
    (cm.Set flt sz now w t te f b c).2 = Except.ok () := by
  unfold CacheManager.Set
  by_cases h : fileExists w (cm.config.baseDir, t, te) f
  · simp [h]
  · simp only [eq_false h, if_false]
    rcases hr : (cm.cleanupOldCacheFiles flt w t te f).2 with _ | _
    · simp [hr]
    · simp [hr]

/-- `CacheManager.Delete` always reports success (`os.RemoveAll` on the
ideal filesystem; a missing directory is a success too). -/
theorem delete_result_ok (cm : CacheManager) (w : World) (t : GoStr) :
    (cm.Delete w t).2 = Except.ok () := rfl

/-- When the global manager is non-nil, `api.Get` returns whatever the
manager's `Get` returns. -/
theorem api_get_some (flt : FsFault) (now : Int) (st : ApiState)
    (cm : CacheManager) (h : st.global = some cm) (t te f b : GoStr) :
    (api.Get flt now st t te f b).2 = (cm.Get flt now st.w t te f b).2 := by
  unfold api.Get
  rw [h]

/-- When the global manager is non-nil, `api.Set` returns whatever the
manager's `Set` returns. -/
theorem api_set_some (flt : FsFault) (sz : CacheTable → Nat) (now : Int)
    (st : ApiState) (cm : CacheManager) (h : st.global = some cm)
    (t te f b : GoStr) (c : Bytes) :
    (api.Set flt sz now st t te f b c).2 =
      (cm.Set flt sz now st.w t te f b c).2 := by
  unfold api.Set
  rw [h]

/-- C4 fails on the code: with the traversal component `".."` as the table,
`Get` does *not* fail with `InvalidArgument` — it proceeds (here: a Miss),
and the path the resolver computes, `filepath.Join("cache", "..", "t",
"f.db") = "t/f.db"`, lies outside the base directory.  No component
validation exists anywhere in the code. -/
theorem claim4_counterexample :
    (CacheManager.Get noFault 0 cmCache {} "..".data "t".data "f".data
      "b".data).2 = Except.error CErr.cacheNotFound ∧
    (Except.error CErr.cacheNotFound : Except CErr Bytes) ≠
      Except.error CErr.invalidArgument ∧
    cmCache.getDBPath "..".data "t".data "f".data =
      ["t".data, dbFileName "f".data] ∧
    ¬ underBase "cache".data (cmCache.getDBPath "..".data "t".data
      "f".data) := by
  exact ⟨by decide, by decide, by decide, by decide⟩

/-- C4 amended: no validation of the key components is performed.  `Get`,
`Set` and `Delete` never fail with `InvalidArgument` for *any* input — a
component containing a path separator or a traversal sequence is joined
into the filesystem path unchecked, and a `".."` component yields a path
outside `base_dir` (witnessed by the table component `".."` under base
`cache`). -/
theorem claim4_amended :
    (∀ flt now cm w t te f b,
      (CacheManager.Get flt now cm w t te f b).2 ≠
        Except.error CErr.invalidArgument) ∧
    (∀ flt sz now cm w t te f b c,
      (CacheManager.Set flt sz now cm w t te f b c).2 ≠
        Except.error CErr.invalidArgument) ∧
    (∀ cm w t, (CacheManager.Delete cm w t).2 ≠
      Except.error CErr.invalidArgument) ∧
    cmCache.getDBPath "..".data "t".data "f".data =
      ["t".data, dbFileName "f".data] ∧
    ¬ underBase "cache".data (cmCache.getDBPath "..".data "t".data
      "f".data) := by
  refine ⟨?_, ?_, ?_, by decide, by decide⟩
  · intro flt now cm w t te f b
    rcases get_result_spec flt now cm w t te f b with hr | hr | hr | ⟨c, hr⟩ <;>
      rw [hr] <;> simp
  · intro flt sz now cm w t te f b c
    rcases set_result_spec flt sz now cm w t te f b c with hr | hr <;>
      rw [hr] <;> simp
  · intro cm w t
    rw [delete_result_ok]
    simp

/-- Witness for the amended C4: a concrete `Get` with a traversal component
does not return `InvalidArgument`. -/
theorem claim4_amended_witness :
    (CacheManager.Get noFault 0 cmCache {} "..".data "t".data "f".data
      "b".data).2 ≠ Except.error CErr.invalidArgument :=
  claim4_amended.1 noFault 0 cmCache {} "..".data "t".data "f".data "b".data

/-- C5: `Init` validates the cap exactly on the closed range `[0, 0.95]`:
it succeeds iff `0 ≤ cap ≤ 0.95` (the boundary `0.95 = mkRat 19 20`
included), fails with `InvalidArgument` iff `cap < 0` or `cap > 0.95`, and
on rejection leaves the manager — in particular its configuration —
untouched; on acceptance the configuration `(baseDir, maxSize, cap)` is
installed. -/
theorem claim5_init_cap_validation (cm : CacheManager) (b : GoStr) (m : Int)
    (cap : ℚ) :
    ((cm.Init b m cap).2 = Except.ok () ↔ 0 ≤ cap ∧ cap ≤ mkRat 19 20) ∧
    ((cm.Init b m cap).2 = Except.error CErr.invalidArgument ↔
      (cap < 0 ∨ mkRat 19 20 < cap)) ∧
    ((cap < 0 ∨ mkRat 19 20 < cap) → (cm.Init b m cap).1 = cm) ∧
    (0 ≤ cap → cap ≤ mkRat 19 20 →
      (cm.Init b m cap).1.config = ⟨b, m, cap⟩) := by
  unfold CacheManager.Init
  by_cases h : cap < 0 ∨ cap > mkRat 19 20
  · have hnot : ¬ (0 ≤ cap ∧ cap ≤ mkRat 19 20) := by
      rintro ⟨h1, h2⟩
      rcases h with h | h
      · exact absurd h (not_lt.mpr h1)
      · exact absurd h (not_lt.mpr h2)
    rw [if_pos h]
    refine ⟨⟨fun hc => Except.noConfusion hc, fun hb => absurd hb hnot⟩,
      ⟨fun _ => h, fun _ => rfl⟩, fun _ => rfl,
      fun h1 h2 => absurd ⟨h1, h2⟩ hnot⟩
  · push_neg at h
    have hnot : ¬ (cap < 0 ∨ mkRat 19 20 < cap) := by
      rintro (hc | hc)
      · exact absurd hc (not_lt.mpr h.1)
      · exact absurd hc (not_lt.mpr h.2)
    rw [if_neg hnot]
    exact ⟨⟨fun _ => ⟨h.1, h.2⟩, fun _ => rfl⟩,
      ⟨fun hc => Except.noConfusion hc, fun hb => absurd hb hnot⟩,
      fun hb => absurd hb hnot, fun _ _ => rfl⟩

/-- Witness for C5: the boundary `0.95` is accepted, `0.96` is rejected, and
the rejection leaves the default manager unchanged. -/
theorem claim5_witness :
    (CacheManager.Init {} [] 10 (mkRat 19 20)).2 = Except.ok () ∧
    (CacheManager.Init {} [] 10 (mkRat 96 100)).2 =
      Except.error CErr.invalidArgument ∧
    (CacheManager.Init {} [] 10 (mkRat 96 100)).1 = ({} : CacheManager) :=
  ⟨(claim5_init_cap_validation {} [] 10 (mkRat 19 20)).1.mpr (by decide),
   (claim5_init_cap_validation {} [] 10 (mkRat 96 100)).2.1.mpr
     (by decide),
   (claim5_init_cap_validation {} [] 10 (mkRat 96 100)).2.2.1 (by decide)⟩

/-- C10: `api.Init` replaces the global manager by a freshly constructed one
*before* validation runs.  After an `Init` whose cap is out of range the
call reports `InvalidArgument`, yet the global manager is the new
zero-configuration manager (empty `base_dir`, no handles), the world — and
with it the close log — is untouched (no handle of the previous manager is
ever closed), and subsequent `Get`, `Set` and `Delete` do not fail with
`NotInitialized`. -/
theorem claim10_init_replaces_manager (s : ApiState) (b : GoStr) (m : Int)
    (cap : ℚ) (h : cap < 0 ∨ mkRat 19 20 < cap) :
    (api.Init s b m cap).2 = Except.error CErr.invalidArgument ∧
    (api.Init s b m cap).1.global = some (NewCacheManager {}) ∧
    (api.Init s b m cap).1.w = s.w ∧
    (∀ flt now t te f bi,
      (api.Get flt now (api.Init s b m cap).1 t te f bi).2 ≠
        Except.error CErr.notInitialized) ∧
    (∀ flt sz now t te f bi c,
      (api.Set flt sz now (api.Init s b m cap).1 t te f bi c).2 ≠
        Except.error CErr.notInitialized) ∧
    (∀ t, (api.Delete (api.Init s b m cap).1 t).2 ≠
        Except.error CErr.notInitialized) := by
  have hinit : api.Init s b m cap =
      ({ s with global := some (NewCacheManager {}) },
        Except.error CErr.invalidArgument) := by
    unfold api.Init CacheManager.Init
    dsimp only
    rw [if_pos h]
  refine ⟨by rw [hinit], by rw [hinit], by rw [hinit], ?_, ?_, ?_⟩
  · intro flt now t te f bi
    rw [api_get_some flt now _ (NewCacheManager {}) (by rw [hinit])]
    rcases get_result_spec flt now (NewCacheManager {})
        (api.Init s b m cap).1.w t te f bi with hr | hr | hr | ⟨c, hr⟩ <;>
      rw [hr] <;> simp
  · intro flt sz now t te f bi c
    rw [api_set_some flt sz now _ (NewCacheManager {}) (by rw [hinit])]
    rcases set_result_spec flt sz now (NewCacheManager {})
        (api.Init s b m cap).1.w t te f bi c with hr | hr <;>
      rw [hr] <;> simp
  · intro t
    unfold api.Delete
    rw [hinit]
    simp [delete_result_ok]

/-- Witness for C10: re-`Init` with cap `0.96` over a state holding a
previously initialized manager with an open handle: the error is
`InvalidArgument`, the manager is replaced, nothing is closed, and a
subsequent `Get` does not report `NotInitialized`. -/
theorem claim10_witness :
    (api.Init prevState [] 10 (mkRat 96 100)).2 =
      Except.error CErr.invalidArgument ∧
    (api.Init prevState [] 10 (mkRat 96 100)).1.global =
      some (NewCacheManager {}) ∧
    (api.Init prevState [] 10 (mkRat 96 100)).1.w = prevState.w ∧
    (api.Get noFault 0 (api.Init prevState [] 10 (mkRat 96 100)).1
      "old".data "t1".data "f1".data "k".data).2 ≠
        Except.error CErr.notInitialized := by
  have h := claim10_init_replaces_manager prevState [] 10 (mkRat 96 100)
    (by decide)
  exact ⟨h.1, h.2.1, h.2.2.1,
    h.2.2.2.1 noFault 0 "old".data "t1".data "f1".data "k".data⟩

/-- The sweep loop keeps exactly the entries it must keep plus those whose
unlink failed: a failed `os.Remove` does not abort the loop — later stale
entries are still removed. -/
theorem sweepEntries_entries (flt : FsFault) (t te cur : GoStr) :
    ∀ (es : List FileEnt) (dbs closed : List GoStr),
      (sweepEntries flt t te cur dbs closed es).2.2 =
        es.filter fun e => keepEntry cur e || flt.removeFails e.name := by
  intro es
  induction es with
  | nil => intro dbs closed; rfl
  | cons e es ih =>
    intro dbs closed
    unfold sweepEntries
    by_cases h : e.isDir = true ∨ ¬ (dbSuffix <:+ e.name) ∨
        trimDbSuffix e.name = cur
    · rw [if_pos h]
      have hk : (keepEntry cur e || flt.removeFails e.name) = true := by
        simp [keepEntry, h]
      simp only [List.filter_cons, hk, if_true]
      rw [ih]
    · rw [if_neg h]
      have hk : keepEntry cur e = false := by
        simp only [keepEntry, decide_eq_false_iff_not]
        exact h
      by_cases h2 : flt.removeFails e.name
      · rw [if_pos h2]
        simp only [List.filter_cons, hk, h2, Bool.false_or, if_true]
        rw [ih]
      · rw [if_neg h2]
        have h2' : flt.removeFails e.name = false := by
          exact eq_false_of_ne_true (by simpa using h2)
        simp only [List.filter_cons, hk, h2', Bool.false_or, Bool.or_self]
        rw [ih]
        simp

/-- A present key found after the in-place update of `fsSet`. -/
theorem find_map_self (k : DirKey) (d : List FileEnt) :
    ∀ (l : List (DirKey × List FileEnt)),
      (l.find? fun p => decide (p.1 = k)).isSome = true →
      ((l.map fun p => if p.1 = k then (k, d) else p).find? fun p =>
        decide (p.1 = k)) = some (k, d) := by
  intro l
  induction l with
  | nil => intro h; simp at h
  | cons p l ih =>
    intro h
    by_cases hp : p.1 = k
    · simp [List.find?_cons, hp]
    · simp only [List.map_cons, if_neg hp]
      rw [List.find?_cons_of_neg _ (by simp [hp])]
      rw [List.find?_cons_of_neg _ (by simp [hp])] at h
      exact ih h

/-- A previously absent key found after the append of `fsSet`. -/
theorem find_append_single (k : DirKey) (d : List FileEnt) :
    ∀ (l : List (DirKey × List FileEnt)),
      (l.find? fun p => decide (p.1 = k)) = none →
      ((l ++ [(k, d)]).find? fun p => decide (p.1 = k)) = some (k, d) := by
  intro l
  induction l with
  | nil => intro _; simp [List.find?_cons]
  | cons p l ih =>
    intro h
    have hp : ¬ (p.1 = k) := by
      intro hk
      rw [List.find?_cons_of_pos _ (by simp [hk])] at h
      cases h
    rw [List.find?_cons_of_neg _ (by simp [hp])] at h
    simp only [List.cons_append]
    rw [List.find?_cons_of_neg _ (by simp [hp])]
    exact ih h

/-- The in-place update of `fsSet` leaves other keys untouched. -/
theorem find_map_ne (k k' : DirKey) (d : List FileEnt) (hne : k' ≠ k) :
    ∀ (l : List (DirKey × List FileEnt)),
      ((l.map fun p => if p.1 = k then (k, d) else p).find? fun p =>
        decide (p.1 = k')).map Prod.snd =
      (l.find? fun p => decide (p.1 = k')).map Prod.snd := by
  intro l
  induction l with
  | nil => rfl
  | cons p l ih =>
    by_cases hp : p.1 = k
    · have hp' : ¬ (p.1 = k') := by rw [hp]; exact fun hh => hne hh.symm
      simp only [List.map_cons, if_pos hp]
      rw [List.find?_cons_of_neg _ (by simpa using fun hh => hne hh.symm),
        List.find?_cons_of_neg _ (by simp [hp'])]
      exact ih
    · simp only [List.map_cons, if_neg hp]
      by_cases hq : p.1 = k'
      · rw [List.find?_cons_of_pos _ (by simp [hq]),
          List.find?_cons_of_pos _ (by simp [hq])]
      · rw [List.find?_cons_of_neg _ (by simp [hq]),
          List.find?_cons_of_neg _ (by simp [hq])]
        exact ih

/-- The append of `fsSet` leaves other keys untouched. -/
theorem find_append_single_ne (k k' : DirKey) (d : List FileEnt)
    (hne : k' ≠ k) :
    ∀ (l : List (DirKey × List FileEnt)),
      ((l ++ [(k, d)]).find? fun p => decide (p.1 = k')).map Prod.snd =
      (l.find? fun p => decide (p.1 = k')).map Prod.snd := by
  intro l
  induction l with
  | nil => simp [List.find?_cons, hne.symm]
  | cons p l ih =>
    by_cases hq : p.1 = k'
    · simp only [List.cons_append]
      rw [List.find?_cons_of_pos _ (by simp [hq]),
        List.find?_cons_of_pos _ (by simp [hq])]
    · simp only [List.cons_append]
      rw [List.find?_cons_of_neg _ (by simp [hq]),
        List.find?_cons_of_neg _ (by simp [hq])]
      exact ih

/-- Reading back the directory just written. -/
theorem fsFind_fsSet_self (w : World) (k : DirKey) (d : List FileEnt) :
    fsFind (fsSet w k d) k = some d := by
  unfold fsFind fsSet
  by_cases h : (w.fs.find? fun p => decide (p.1 = k)).isSome
  · rw [if_pos h]
    have := find_map_self k d w.fs h
    simp only [this]
    rfl
  · rw [if_neg h]
    have hnone : (w.fs.find? fun p => decide (p.1 = k)) = none := by
      rcases ho : (w.fs.find? fun p => decide (p.1 = k)) with _ | v
      · exact ho
      · exact absurd (by simp [ho]) h
    have := find_append_single k d w.fs hnone
    simp only [this]
    rfl

/-- Writing one directory leaves every other directory unchanged. -/
theorem fsFind_fsSet_ne (w : World) (k k' : DirKey) (d : List FileEnt)
    (hne : k' ≠ k) : fsFind (fsSet w k d) k' = fsFind w k' := by
  unfold fsFind fsSet
  by_cases h : (w.fs.find? fun p => decide (p.1 = k)).isSome
  · rw [if_pos h]
    exact find_map_ne k k' d hne w.fs
  · rw [if_neg h]
    exact find_append_single_ne k k' d hne w.fs

/-- A missing tenant directory makes the sweep a no-op success. -/
theorem cleanup_missing_dir (flt : FsFault) (cm : CacheManager) (w : World)
    (t te cur : GoStr) (h : fsFind w (cm.config.baseDir, t, te) = none) :
    cm.cleanupOldCacheFiles flt w t te cur = ((cm, w), Except.ok ()) := by
  unfold CacheManager.cleanupOldCacheFiles
  simp only [h]

/-- A failing `os.ReadDir` on an existing tenant directory aborts the sweep
with an error and no filesystem change. -/
theorem cleanup_readdir_error (flt : FsFault) (cm : CacheManager) (w : World)
    (t te cur : GoStr) (dir : List FileEnt)
    (hdir : fsFind w (cm.config.baseDir, t, te) = some dir)
    (hrd : flt.readDirErr = true) :
    cm.cleanupOldCacheFiles flt w t te cur = ((cm, w), Except.error ()) := by
  unfold CacheManager.cleanupOldCacheFiles
  simp only [hdir, hrd, if_true]

/-- A successful directory listing makes the sweep report success and leave
exactly the kept-or-unremovable entries, whatever the unlink outcomes. -/
theorem cleanup_dir_ok (flt : FsFault) (cm : CacheManager) (w : World)
    (t te cur : GoStr) (dir : List FileEnt)
    (hdir : fsFind w (cm.config.baseDir, t, te) = some dir)
    (hrd : flt.readDirErr = false) :
    (cm.cleanupOldCacheFiles flt w t te cur).2 = Except.ok () ∧
    fsFind (cm.cleanupOldCacheFiles flt w t te cur).1.2
        (cm.config.baseDir, t, te) =
      some (dir.filter fun e =>
        keepEntry cur e || flt.removeFails e.name) := by
  unfold CacheManager.cleanupOldCacheFiles
  simp only [hdir, hrd, Bool.false_eq_true, if_false]
  refine ⟨trivial, ?_⟩
  rw [fsFind_fsSet_self, sweepEntries_entries]

/-- On the fault-free filesystem the sweep always reports success. -/
theorem cleanup_noFault_ok (cm : CacheManager) (w : World)
    (t te cur : GoStr) :
    (cm.cleanupOldCacheFiles noFault w t te cur).2 = Except.ok () := by
  rcases hdir : fsFind w (cm.config.baseDir, t, te) with _ | dir
  · rw [cleanup_missing_dir noFault cm w t te cur hdir]
  · exact (cleanup_dir_ok noFault cm w t te cur dir hdir rfl).1

/-- On the fault-free filesystem `Set` always succeeds. -/
theorem set_noFault_ok (sz : CacheTable → Nat) (now : Int)
    (cm : CacheManager) (w : World) (t te f b : GoStr) (c : Bytes) :
    (cm.Set noFault sz now w t te f b c).2 = Except.ok () := by
  unfold CacheManager.Set
  by_cases h : fileExists w (cm.config.baseDir, t, te) f
  · simp [h]
  · simp only [eq_false h, if_false, cleanup_noFault_ok]

/-- C7 fails on the code: with a stale `f2.db` whose unlink errors, the
sweeper still returns success — the recorded unlink error is *not* returned
after the loop (the code discards the `os.Remove` error value entirely).
The file demonstrably failed to be unlinked: it is still in the directory. -/
theorem claim7_counterexample :
    (cmCache.cleanupOldCacheFiles fltRemoveFail wStale "users".data
      "t1".data "f9".data).2 = Except.ok () ∧
    (Except.ok () : Except Unit Unit) ≠ Except.error () ∧
    fsFind (cmCache.cleanupOldCacheFiles fltRemoveFail wStale "users".data
      "t1".data "f9".data).1.2 ("cache".data, "users".data, "t1".data) =
      some staleDir := by decide

/-- C7 amended: an error while unlinking an individual stale file does not
abort the sweep — the loop continues over the remaining entries and removes
every other removable stale file — but the unlink error is *discarded*, not
returned: the sweeper reports success whenever the directory listing
succeeded, and returns an error only when `os.ReadDir` itself fails. -/
theorem claim7_sweep_continues (flt : FsFault) (cm : CacheManager)
    (w : World) (t te cur : GoStr) (dir : List FileEnt)
    (hdir : fsFind w (cm.config.baseDir, t, te) = some dir) :
    (flt.readDirErr = false →
      (cm.cleanupOldCacheFiles flt w t te cur).2 = Except.ok () ∧
      fsFind (cm.cleanupOldCacheFiles flt w t te cur).1.2
          (cm.config.baseDir, t, te) =
        some (dir.filter fun e =>
          keepEntry cur e || flt.removeFails e.name)) ∧
    (flt.readDirErr = true →
      cm.cleanupOldCacheFiles flt w t te cur =
        ((cm, w), Except.error ())) := by
  constructor
  · intro hrd
    exact cleanup_dir_ok flt cm w t te cur dir hdir hrd
  · intro hrd
    exact cleanup_readdir_error flt cm w t te cur dir hdir hrd

/-- Witness for the amended C7: the sweep over a directory whose only stale
file cannot be unlinked reports success and leaves that file in place. -/
theorem claim7_sweep_continues_witness :
    (cmCache.cleanupOldCacheFiles fltRemoveFail wStale "users".data
      "t1".data "f9".data).2 = Except.ok () ∧
    fsFind (cmCache.cleanupOldCacheFiles fltRemoveFail wStale "users".data
      "t1".data "f9".data).1.2 ("cache".data, "users".data, "t1".data) =
      some (staleDir.filter fun e =>
        keepEntry "f9".data e || fltRemoveFail.removeFails e.name) :=
  (claim7_sweep_continues fltRemoveFail cmCache wStale "users".data
    "t1".data "f9".data staleDir (by decide)).1 rfl

/-- C9 fails on the code: on a state where the target cache file is absent
but the tenant directory exists, a sweeper failure (a failing directory
listing) makes `Set` fail with the wrapped cleanup error even though the
very same `Set` on the fault-free filesystem succeeds — the sweeper error
masks the otherwise-successful write. -/
theorem claim9_counterexample :
    (cmCache.Set fltReadDirFail sizeZero 0 wStale "users".data "t1".data
      "f3".data "k".data [1]).2 = Except.error CErr.cleanupFailed ∧
    (cmCache.Set noFault sizeZero 0 wStale "users".data "t1".data
      "f3".data "k".data [1]).2 = Except.ok () := by decide

/-- C9 amended: when the cache file is absent and the tenant directory
exists, a sweeper failure aborts the operation and is surfaced — `Set`
fails with the wrapped cleanup error instead of completing the write, and
`Get` returns the cleanup error instead of the Miss; on the fault-free
filesystem the same `Set` succeeds and the same `Get` reports the Miss.
Sweeper errors are swallowed only in the missing-directory case (and unlink
errors are discarded, see C7). -/
theorem claim9_sweep_error_surfaces (flt : FsFault) (sz : CacheTable → Nat)
    (now : Int) (cm : CacheManager) (w : World) (t te f b : GoStr)
    (c : Bytes) (dir : List FileEnt)
    (habs : fileExists w (cm.config.baseDir, t, te) f = false)
    (hdir : fsFind w (cm.config.baseDir, t, te) = some dir)
    (hrd : flt.readDirErr = true) :
    (cm.Set flt sz now w t te f b c).2 = Except.error CErr.cleanupFailed ∧
    (cm.Get flt now w t te f b).2 = Except.error CErr.cleanupFailed ∧
    (cm.Set noFault sz now w t te f b c).2 = Except.ok () ∧
    (cm.Get noFault now w t te f b).2 = Except.error CErr.cacheNotFound := by
  refine ⟨?_, ?_, set_noFault_ok sz now cm w t te f b c, ?_⟩
  · unfold CacheManager.Set
    simp only [habs, Bool.false_eq_true, if_false,
      cleanup_readdir_error flt cm w t te f dir hdir hrd]
  · unfold CacheManager.Get
    simp only [habs, Bool.false_eq_true, if_false,
      cleanup_readdir_error flt cm w t te f dir hdir hrd]
  · unfold CacheManager.Get
    simp only [habs, Bool.false_eq_true, if_false, cleanup_noFault_ok]

/-- Witness for the amended C9 at the concrete stale-directory state. -/
theorem claim9_sweep_error_surfaces_witness :
    (cmCache.Set fltReadDirFail sizeZero 0 wStale "users".data "t1".data
      "f3".data "k".data [1]).2 = Except.error CErr.cleanupFailed ∧
    (cmCache.Get fltReadDirFail 0 wStale "users".data "t1".data "f3".data
      "k".data).2 = Except.error CErr.cleanupFailed ∧
    (cmCache.Set noFault sizeZero 0 wStale "users".data "t1".data
      "f3".data "k".data [1]).2 = Except.ok () ∧
    (cmCache.Get noFault 0 wStale "users".data "t1".data "f3".data
      "k".data).2 = Except.error CErr.cacheNotFound :=
  claim9_sweep_error_surfaces fltReadDirFail sizeZero 0 cmCache wStale
    "users".data "t1".data "f3".data "k".data [1] staleDir (by decide)
    (by decide) rfl

/-- The Go eviction condition of `Delete` — `len(key) > len(table) &&
key[:len(table)] == table && key[len(table)] == ':'` — says exactly that the
key begins with `table` followed by the separator `':'`. -/
theorem goEvictCond_iff (key table : GoStr) :
    goEvictCond key table = true ↔ (table ++ [':']) <+: key := by
  unfold goEvictCond
  rw [decide_eq_true_eq]
  constructor
  · rintro ⟨h1, h2, h3⟩
    have hk : key = table ++ key.drop table.length := by
      conv_lhs => rw [← List.take_append_drop table.length key]
      rw [h2]
    have hd : (key.drop table.length)[0]? = some ':' := by
      rw [List.getElem?_drop]
      simpa using h3
    rcases hdr : key.drop table.length with _ | ⟨a, rest⟩
    · rw [hdr] at hd; cases hd
    · rw [hdr] at hd
      simp only [List.getElem?_cons_zero, Option.some.injEq] at hd
      refine ⟨rest, ?_⟩
      rw [hk, hdr, hd]
      simp
  · rintro ⟨rest, hres⟩
    have hk : key = table ++ ':' :: rest := by rw [← hres]; simp
    refine ⟨?_, ?_, ?_⟩
    · rw [hk]
      simp only [List.length_append, List.length_cons]
      omega
    · rw [hk, List.take_left]
    · rw [hk, List.getElem?_append_right le_rfl]
      simp

/-- Two separator-free strings followed by the separator and anything else
agree as soon as the concatenations agree. -/
theorem sep_splits_eq : ∀ (x y u v : GoStr), ':' ∉ x → ':' ∉ y →
    x ++ ':' :: u = y ++ ':' :: v → x = y := by
  intro x
  induction x with
  | nil =>
    intro y u v _ hy h
    cases y with
    | nil => rfl
    | cons b ys =>
      rw [List.nil_append, List.cons_append] at h
      injection h with h1 h2
      exact absurd (h1 ▸ List.mem_cons_self b ys) hy
  | cons a xs ih =>
    intro y u v hx hy h
    cases y with
    | nil =>
      rw [List.cons_append, List.nil_append] at h
      injection h with h1 h2
      exact absurd (h1 ▸ List.mem_cons_self a xs) hx
    | cons b ys =>
      rw [List.cons_append, List.cons_append] at h
      injection h with h1 h2
      rw [h1, ih ys u v (fun hm => hx (List.mem_cons_of_mem a hm))
        (fun hm => hy (List.mem_cons_of_mem b hm)) h2]

/-- On well-formed handle keys with separator-free components, the eviction
condition holds exactly for the keys of the deleted table: `foo` never
captures `foobar`'s keys and vice versa. -/
theorem goEvictCond_getDBKey (a te f table : GoStr) (ha : ':' ∉ a)
    (ht : ':' ∉ table) :
    (goEvictCond (CacheManager.getDBKey a te f) table = true ↔
      a = table) := by
  rw [goEvictCond_iff]
  unfold CacheManager.getDBKey
  constructor
  · rintro ⟨rest, hres⟩
    have hres' : table ++ ':' :: rest = a ++ ':' :: (te ++ ':' :: f) := by
      simpa using hres
    exact (sep_splits_eq table a rest (te ++ ':' :: f) ht ha hres').symm
  · rintro rfl
    exact ⟨te ++ [':'] ++ f, by simp⟩

/-- After filtering a table's directories out, no tenant directory of that
table can be found. -/
theorem find_filtered_none (base table : GoStr) (te : GoStr) :
    ∀ (l : List (DirKey × List FileEnt)),
      ((l.filter fun p =>
        decide (¬ (p.1.1 = base ∧ p.1.2.1 = table))).find? fun p =>
          decide (p.1 = (base, table, te))) = none := by
  intro l
  induction l with
  | nil => rfl
  | cons p l ih =>
    by_cases hkeep : ¬ (p.1.1 = base ∧ p.1.2.1 = table)
    · have hc : decide (¬ (p.1.1 = base ∧ p.1.2.1 = table)) = true :=
        decide_eq_true hkeep
      simp only [List.filter_cons, hc, if_true]
      have hne : ¬ (p.1 = (base, table, te)) := by
        intro hp
        exact hkeep ⟨by rw [hp], by rw [hp]⟩
      rw [List.find?_cons_of_neg _ (by simpa using hne)]
      exact ih
    · rw [not_not] at hkeep
      have hc : decide (¬ (p.1.1 = base ∧ p.1.2.1 = table)) = false := by
        simp [hkeep.1, hkeep.2]
      simp only [List.filter_cons, hc, Bool.false_eq_true, if_false]
      exact ih

/-- C8: `Delete(T)` succeeds (a missing directory included), closes and
removes exactly the handle-table entries whose key begins with `T` followed
by the separator `':'` (on well-formed keys with separator-free components
this means exactly the keys of table `T`, so `foo` and `foobar` never
interfere), removes every tenant directory under `<base_dir>/<T>`, and
every subsequent `Get` with table `T` yields the Miss "cache not found". -/
theorem claim8_delete (cm : CacheManager) (w : World) (table : GoStr) :
    ((cm.Delete w table).2 = Except.ok ()) ∧
    ((cm.Delete w table).1.1.dbs =
      cm.dbs.filter fun k => ¬ goEvictCond k table) ∧
    ((cm.Delete w table).1.2.closed =
      w.closed ++ cm.dbs.filter fun k => goEvictCond k table) ∧
    (∀ k, goEvictCond k table = true ↔ (table ++ [':']) <+: k) ∧
    (∀ a te f, ':' ∉ a → ':' ∉ table →
      (goEvictCond (CacheManager.getDBKey a te f) table = true ↔
        a = table)) ∧
    (∀ te, fsFind (cm.Delete w table).1.2
      (cm.config.baseDir, table, te) = none) ∧
    (∀ flt now te f b,
      (CacheManager.Get flt now (cm.Delete w table).1.1
        (cm.Delete w table).1.2 table te f b).2 =
          Except.error CErr.cacheNotFound) := by
  have hfind : ∀ te, fsFind (cm.Delete w table).1.2
      (cm.config.baseDir, table, te) = none := by
    intro te
    unfold CacheManager.Delete fsFind
    simp only
    rw [find_filtered_none cm.config.baseDir table te w.fs]
    rfl
  refine ⟨rfl, rfl, rfl, fun k => goEvictCond_iff k table,
    fun a te f ha ht => goEvictCond_getDBKey a te f table ha ht, hfind, ?_⟩
  intro flt now te f b
  have hfe : fileExists (cm.Delete w table).1.2
      ((cm.Delete w table).1.1.config.baseDir, table, te) f = false := by
    unfold fileExists
    have hcfg : (cm.Delete w table).1.1.config = cm.config := rfl
    rw [hcfg, hfind te]
    rfl
  unfold CacheManager.Get
  simp only [hfe, Bool.false_eq_true, if_false]
  have hcm : ((cm.Delete w table).1.1.config.baseDir, table, te) =
      (cm.config.baseDir, table, te) := rfl
  rw [cleanup_missing_dir flt (cm.Delete w table).1.1 (cm.Delete w table).1.2
    table te f (by rw [hcm] at *; exact hfind te)]

/-- Witness for C8 at a manager holding handles for `foo` and `foobar`:
`Delete(foo)` succeeds, evicts exactly the `foo:`-prefixed handle (the
`foobar` handle survives), and a subsequent `Get` on `foo` misses. -/
theorem claim8_delete_witness :
    ((cmFoo.Delete {} "foo".data).2 = Except.ok ()) ∧
    ((cmFoo.Delete {} "foo".data).1.1.dbs = ["foobar:t:f".data]) ∧
    (goEvictCond (CacheManager.getDBKey "foobar".data "t".data "f".data)
      "foo".data = true ↔ "foobar".data = "foo".data) ∧
    ((CacheManager.Get noFault 0 (cmFoo.Delete {} "foo".data).1.1
        (cmFoo.Delete {} "foo".data).1.2 "foo".data "t".data "f".data
        "k".data).2 = Except.error CErr.cacheNotFound) := by
  have h := claim8_delete cmFoo {} "foo".data
  refine ⟨h.1, ?_, ?_, h.2.2.2.2.2.2 noFault 0 "t".data "f".data "k".data⟩
  · rw [h.2.1]
    decide
  · exact h.2.2.2.2.1 "foobar".data "t".data "f".data (by decide) (by decide)

/-- The LRU sort key is transitive. -/
theorem rowLE_trans (a b c : Row) (h1 : rowLE a b = true)
    (h2 : rowLE b c = true) : rowLE a c = true := by
  simp only [rowLE, decide_eq_true_eq] at *
  rcases h1 with h1 | ⟨h1, h1'⟩ <;> rcases h2 with h2 | ⟨h2, h2'⟩
  · exact Or.inl (lt_trans h1 h2)
  · exact Or.inl (h2 ▸ h1)
  · exact Or.inl (h1 ▸ h2)
  · exact Or.inr ⟨h1.trans h2, le_trans h1' h2'⟩

/-- The LRU sort key is total. -/
theorem rowLE_total (a b : Row) : (rowLE a b || rowLE b a) = true := by
  simp only [rowLE, Bool.or_eq_true, decide_eq_true_eq]
  omega

/-- Go's truncating conversion agrees with the floor on non-negative
values — `int(float64(n) * cap)` is `⌊n · cap⌋`. -/
theorem goInt_eq_floor (q : ℚ) (h : 0 ≤ q) : goInt q = ⌊q⌋ := by
  unfold goInt
  rw [Int.tdiv_eq_ediv (Rat.num_nonneg.mpr h) (Int.ofNat_nonneg _)]
  exact Rat.floor_def.symm

/-- A validated cap is at most one. -/
theorem cap_le_one (cap : ℚ) (h : cap ≤ mkRat 19 20) : cap ≤ 1 := by
  refine le_trans h ?_
  rw [Rat.mkRat_eq_div]
  norm_num

/-- The LRU cull on a non-empty table with a validated cap: exactly
`⌊n · cap⌋` rows remain, the surviving rows are a sublist of the original
(nothing is reordered or invented), and every deleted row precedes every
surviving row in `(last_accessed, id)` order — the deleted rows are the
`n - ⌊n · cap⌋` least-recently-accessed ones, ties broken by insertion
order. -/
theorem lruCleanup_spec (cap : ℚ) (t : CacheTable)
    (hids : (t.rows.map Row.id).Nodup) (hcap0 : 0 ≤ cap)
    (hcap1 : cap ≤ mkRat 19 20) (hpos : 0 < t.rows.length) :
    (lruCleanup cap t).rows.length =
      (⌊(t.rows.length : ℚ) * cap⌋).toNat ∧
    (lruCleanup cap t).rows.Sublist t.rows ∧
    (∀ rd ∈ t.rows, rd ∉ (lruCleanup cap t).rows →
      ∀ rk ∈ (lruCleanup cap t).rows, rowLE rd rk = true) := by
  have hq : 0 ≤ (t.rows.length : ℚ) * cap := mul_nonneg (by positivity) hcap0
  have hgi : goInt ((t.rows.length : ℚ) * cap) =
      ⌊(t.rows.length : ℚ) * cap⌋ := goInt_eq_floor _ hq
  have hk0 : 0 ≤ ⌊(t.rows.length : ℚ) * cap⌋ := Int.floor_nonneg.mpr hq
  have hlt : ⌊(t.rows.length : ℚ) * cap⌋ < (t.rows.length : Int) := by
    rw [Int.floor_lt]
    push_cast
    refine mul_lt_of_lt_one_right (by exact_mod_cast hpos) ?_
    refine lt_of_le_of_lt hcap1 ?_
    rw [Rat.mkRat_eq_div]
    norm_num
  unfold lruCleanup cacheCount
  dsimp only
  rw [hgi, if_neg (by omega)]
  have hperm : (t.rows.mergeSort rowLE).Perm t.rows :=
    List.mergeSort_perm t.rows rowLE
  have hlen : (t.rows.mergeSort rowLE).length = t.rows.length :=
    hperm.length_eq
  have hpair : (t.rows.mergeSort rowLE).Pairwise
      (fun a b => rowLE a b = true) :=
    List.sorted_mergeSort rowLE_trans rowLE_total t.rows
  have hndS : ((t.rows.mergeSort rowLE).map Row.id).Nodup :=
    ((hperm.map Row.id).symm).nodup hids
  set srt := t.rows.mergeSort rowLE with hsrt
  set dn := ((t.rows.length : Int) -
    ⌊(t.rows.length : ℚ) * cap⌋).toNat with hdn
  set V := orderByLimitIds t.rows dn with hV
  have hVids : V = (srt.take dn).map Row.id := by
    rw [hV]
    unfold orderByLimitIds
    rw [← hsrt]
  have hsplit : srt.take dn ++ srt.drop dn = srt :=
    List.take_append_drop dn srt
  have hnd2 : ((srt.take dn).map Row.id ++
      (srt.drop dn).map Row.id).Nodup := by
    rw [← List.map_append, hsplit]
    exact hndS
  have hdisj : ∀ x, x ∈ (srt.take dn).map Row.id →
      x ∈ (srt.drop dn).map Row.id → False := by
    intro x h1 h2
    exact (List.nodup_append.mp hnd2).2.2 h1 h2
  have hmem_take : ∀ r ∈ srt.take dn, V.contains r.id = true := by
    intro r hr
    rw [List.elem_iff, hVids]
    exact List.mem_map_of_mem Row.id hr
  have hmem_drop : ∀ r ∈ srt.drop dn, ¬ (V.contains r.id = true) := by
    intro r hr hc
    rw [List.elem_iff, hVids] at hc
    exact hdisj r.id hc (List.mem_map_of_mem Row.id hr)
  have hfilt : srt.filter (fun r => decide (¬ (V.contains r.id = true)))
      = srt.drop dn := by
    conv_lhs => rw [← hsplit]
    rw [List.filter_append]
    rw [List.filter_eq_nil_iff.mpr (by
      intro a ha
      simp only [decide_eq_true_eq, not_not]
      exact hmem_take a ha)]
    rw [List.nil_append]
    rw [List.filter_eq_self.mpr (by
      intro a ha
      simp only [decide_eq_true_eq]
      exact hmem_drop a ha)]
  have hfperm : (t.rows.filter
        (fun r => decide (¬ (V.contains r.id = true)))).Perm
      (srt.drop dn) := by
    rw [← hfilt]
    exact (hperm.filter _).symm
  refine ⟨?_, List.filter_sublist t.rows, ?_⟩
  · rw [hfperm.length_eq, List.length_drop, hlen]
    omega
  · intro rd hrd hrdel rk hrk
    have hrk' : rk ∈ t.rows ∧
        decide (¬ (V.contains rk.id = true)) = true :=
      List.mem_filter.mp hrk
    have hrdC : V.contains rd.id = true := by
      by_contra hc
      exact hrdel (List.mem_filter.mpr ⟨hrd, by
        simp only [decide_eq_true_eq]
        exact fun hh => hc hh⟩)
    have hrdsrt : rd ∈ srt := hperm.mem_iff.mpr hrd
    have hrdtake : rd ∈ srt.take dn := by
      rcases (List.mem_append.mp (by rw [hsplit]; exact hrdsrt)) with h | h
      · exact h
      · exact absurd hrdC (hmem_drop rd h)
    have hrksrt : rk ∈ srt := hperm.mem_iff.mpr hrk'.1
    have hrkdrop : rk ∈ srt.drop dn := by
      rcases (List.mem_append.mp (by rw [hsplit]; exact hrksrt)) with h | h
      · exfalso
        have := hmem_take rk h
        simp only [decide_eq_true_eq] at hrk'
        exact hrk'.2 this
      · exact h
    have := List.pairwise_append.mp (by rw [hsplit]; exact hpair)
    exact this.2.2 rd hrdtake rk hrkdrop

/-- C6: the size enforcer is the identity when the statted size does not
exceed `max_size` MiB or when the computed delete count is non-positive;
when the size exceeds the ceiling it runs the LRU cull, which deletes
exactly `n - ⌊n · cap⌋` rows — precisely the rows least in
`(last_accessed, id)` order, i.e. smallest `last_accessed` with insertion
order as tie-break — leaving exactly `⌊n · cap⌋` rows (compaction changes
no row). -/
theorem claim6_enforce_size_lru (maxSize : Int) (cap : ℚ) (fileSize : Nat)
    (t : CacheTable) (hids : (t.rows.map Row.id).Nodup)
    (hcap0 : 0 ≤ cap) (hcap1 : cap ≤ mkRat 19 20) :
    (¬ ((fileSize : Int) > maxSize * 1024 * 1024) →
      enforceSize maxSize cap fileSize t = t) ∧
    ((fileSize : Int) > maxSize * 1024 * 1024 →
      enforceSize maxSize cap fileSize t = lruCleanup cap t) ∧
    ((t.rows.length : Int) - goInt ((t.rows.length : ℚ) * cap) ≤ 0 →
      lruCleanup cap t = t) ∧
    (0 < t.rows.length →
      (lruCleanup cap t).rows.length =
        (⌊(t.rows.length : ℚ) * cap⌋).toNat ∧
      t.rows.length - (lruCleanup cap t).rows.length =
        t.rows.length - (⌊(t.rows.length : ℚ) * cap⌋).toNat ∧
      (lruCleanup cap t).rows.Sublist t.rows ∧
      (∀ rd ∈ t.rows, rd ∉ (lruCleanup cap t).rows →
        ∀ rk ∈ (lruCleanup cap t).rows, rowLE rd rk = true)) := by
  refine ⟨?_, ?_, ?_, ?_⟩
  · intro h
    unfold enforceSize
    rw [if_neg h]
  · intro h
    unfold enforceSize
    rw [if_pos h]
  · intro h
    unfold lruCleanup cacheCount
    dsimp only
    rw [if_pos h]
  · intro hpos
    have h := lruCleanup_spec cap t hids hcap0 hcap1 hpos
    exact ⟨h.1, by rw [h.1], h.2.1, h.2.2⟩

/-- Witness for C6: on a four-row table with cap `0.5` whose file has grown
to 11 MiB against a 10 MB ceiling, the enforcer triggers the cull and the
cull keeps exactly `⌊4 · 0.5⌋` rows. -/
theorem claim6_witness :
    (lruDemoTable.rows.map Row.id).Nodup ∧
    (enforceSize 10 (mkRat 1 2) (11 * 1024 * 1024) lruDemoTable =
      lruCleanup (mkRat 1 2) lruDemoTable) ∧
    (lruCleanup (mkRat 1 2) lruDemoTable).rows.length =
      (⌊(lruDemoTable.rows.length : ℚ) * mkRat 1 2⌋).toNat := by
  have h := claim6_enforce_size_lru 10 (mkRat 1 2) (11 * 1024 * 1024)
    lruDemoTable (by decide) (by decide) (by decide)
  exact ⟨by decide, h.2.1 (by decide), (h.2.2.2 (by decide)).1⟩

theorem trimDb_dbFileName (g : GoStr) : trimDbSuffix (dbFileName g) = g := by
  unfold trimDbSuffix dbFileName
  rw [if_pos (List.suffix_append g dbSuffix)]
  simp [List.take_left]

/-- Distinct freshness tokens give distinct cache file names. -/
theorem dbFileName_inj (g f : GoStr) (h : dbFileName g = dbFileName f) :
    g = f := by
  have := trimDb_dbFileName g
  rw [h, trimDb_dbFileName] at this
  exact this.symm

/-- A well-formed directory stays well-formed under any filtering. -/
theorem DirWF_filter (dir : List FileEnt) (p : FileEnt → Bool)
    (h : DirWF dir) : DirWF (dir.filter p) := by
  rcases h with h | ⟨f, db, h⟩
  · rw [h]; exact Or.inl rfl
  · rw [h]
    by_cases hp : p ⟨dbFileName f, false, some db⟩
    · rw [List.filter_cons_of_pos hp]
      exact Or.inr ⟨f, db, rfl⟩
    · rw [List.filter_cons_of_neg (by simpa using hp)]
      exact Or.inl rfl

/-- Writing a well-formed directory keeps the filesystem well-formed. -/
theorem WorldWF_fsSet (w : World) (k : DirKey) (d : List FileEnt)
    (hw : WorldWF w) (hd : DirWF d) : WorldWF (fsSet w k d) := by
  unfold fsSet
  by_cases h : (w.fs.find? fun p => decide (p.1 = k)).isSome
  · rw [if_pos h]
    intro p hp
    rcases List.mem_map.mp hp with ⟨q, hq, hqe⟩
    by_cases hqk : q.1 = k
    · rw [if_pos hqk] at hqe
      rw [← hqe]
      exact hd
    · rw [if_neg hqk] at hqe
      rw [← hqe]
      exact hw q hq
  · rw [if_neg h]
    intro p hp
    rcases List.mem_append.mp hp with hp | hp
    · exact hw p hp
    · rw [List.mem_singleton.mp hp]
      exact hd

/-- The close log does not affect filesystem well-formedness. -/
theorem WorldWF_closed (w : World) (cl : List GoStr) (hw : WorldWF w) :
    WorldWF { w with closed := cl } := hw

/-- A directory found in a well-formed filesystem is well-formed. -/
theorem fsFind_mem_WF (w : World) (k : DirKey) (dir : List FileEnt)
    (hw : WorldWF w) (h : fsFind w k = some dir) : DirWF dir := by
  unfold fsFind at h
  rcases ho : w.fs.find? fun p => decide (p.1 = k) with _ | q
  · rw [ho] at h; cases h
  · rw [ho] at h
    have hq : q ∈ w.fs := List.mem_of_find?_eq_some ho
    have : q.2 = dir := by simpa using h
    rw [← this]
    exact hw q hq

/-- The staleness sweep preserves filesystem well-formedness. -/
theorem cleanup_WF (flt : FsFault) (cm : CacheManager) (w : World)
    (t te cur : GoStr) (hw : WorldWF w) :
    WorldWF (cm.cleanupOldCacheFiles flt w t te cur).1.2 := by
  rcases hdir : fsFind w (cm.config.baseDir, t, te) with _ | dir
  · rw [cleanup_missing_dir flt cm w t te cur hdir]
    exact hw
  · by_cases hrd : flt.readDirErr
    · rw [cleanup_readdir_error flt cm w t te cur dir hdir hrd]
      exact hw
    · unfold CacheManager.cleanupOldCacheFiles
      simp only [hdir, eq_false_of_ne_true hrd, Bool.false_eq_true, if_false]
      refine WorldWF_fsSet _ _ _ hw ?_
      rw [sweepEntries_entries]
      exact DirWF_filter dir _ (fsFind_mem_WF w _ dir hw hdir)

/-- Writing a table back into a missing directory is a no-op. -/
theorem writeFileTable_none (w : World) (dk : DirKey) (f : GoStr)
    (tt : CacheTable) (h : fsFind w dk = none) :
    writeFileTable w dk f tt = w := by
  unfold writeFileTable
  rw [h]

/-- Writing a table back updates the named file in place. -/
theorem writeFileTable_some (w : World) (dk : DirKey) (f : GoStr)
    (tt : CacheTable) (dir : List FileEnt) (h : fsFind w dk = some dir) :
    writeFileTable w dk f tt = fsSet w dk (dir.map fun e =>
      if e.name = dbFileName f then { e with db := some tt } else e) := by
  unfold writeFileTable
  rw [h]

/-- `openDB` with a cached handle touches nothing. -/
theorem openDB_cached (cm : CacheManager) (w : World) (t te f : GoStr)
    (h : CacheManager.getDBKey t te f ∈ cm.dbs) :
    cm.openDB w t te f = (cm, w) := by
  unfold CacheManager.openDB
  rw [if_pos h]

/-- The combined effect of `openDB` followed by writing the cache table
back, starting from a tenant directory that is missing, empty, or already
holds only the current freshness file: the filesystem stays well-formed and
the tenant directory afterwards holds nothing but (at most) the current
freshness file. -/
theorem openDB_write_effect (cm : CacheManager) (w : World) (t te f : GoStr)
    (tt : CacheTable) (hw : WorldWF w)
    (hdir : fsFind w (cm.config.baseDir, t, te) = none ∨
      fsFind w (cm.config.baseDir, t, te) = some [] ∨
      ∃ db, fsFind w (cm.config.baseDir, t, te) =
        some [⟨dbFileName f, false, some db⟩]) :
    WorldWF (writeFileTable (cm.openDB w t te f).2
      (cm.config.baseDir, t, te) f tt) ∧
    ∀ dir', fsFind (writeFileTable (cm.openDB w t te f).2
        (cm.config.baseDir, t, te) f tt) (cm.config.baseDir, t, te) =
          some dir' →
      dir' = [] ∨ ∃ db, dir' = [⟨dbFileName f, false, some db⟩] := by
  by_cases hkey : CacheManager.getDBKey t te f ∈ cm.dbs
  · rw [openDB_cached cm w t te f hkey]
    rcases hdir with hdir | hdir | ⟨db, hdir⟩
    · rw [writeFileTable_none w _ f tt hdir]
      refine ⟨hw, ?_⟩
      intro dir' hd'
      rw [hdir] at hd'
      cases hd'
    · rw [writeFileTable_some w _ f tt [] hdir]
      refine ⟨WorldWF_fsSet w _ _ hw (Or.inl rfl), ?_⟩
      intro dir' hd'
      rw [List.map_nil, fsFind_fsSet_self] at hd'
      exact Or.inl (by injection hd' with h; exact h.symm)
    · rw [writeFileTable_some w _ f tt _ hdir]
      simp only [List.map_cons, List.map_nil, if_pos rfl]
      refine ⟨WorldWF_fsSet w _ _ hw (Or.inr ⟨f, tt, rfl⟩), ?_⟩
      intro dir' hd'
      rw [fsFind_fsSet_self] at hd'
      exact Or.inr ⟨tt, by injection hd' with h; exact h.symm⟩
  · unfold CacheManager.openDB
    rw [if_neg hkey]
    dsimp only
    rcases hdir with hdir | hdir | ⟨db, hdir⟩ <;>
      rw [hdir] <;> dsimp only [Option.getD]
    · rw [show (([] : List FileEnt).any fun e =>
          decide (e.name = dbFileName f)) = false from rfl]
      simp only [Bool.false_eq_true, if_false, List.nil_append]
      rw [writeFileTable_some _ _ f tt _ (fsFind_fsSet_self w _ _)]
      simp only [List.map_cons, List.map_nil, if_pos rfl]
      refine ⟨WorldWF_fsSet _ _ _
        (WorldWF_fsSet w _ _ hw (Or.inr ⟨f, {}, rfl⟩))
        (Or.inr ⟨f, tt, rfl⟩), ?_⟩
      intro dir' hd'
      rw [fsFind_fsSet_self] at hd'
      exact Or.inr ⟨tt, by injection hd' with h; exact h.symm⟩
    · rw [show (([] : List FileEnt).any fun e =>
          decide (e.name = dbFileName f)) = false from rfl]
      simp only [Bool.false_eq_true, if_false, List.nil_append]
      rw [writeFileTable_some _ _ f tt _ (fsFind_fsSet_self w _ _)]
      simp only [List.map_cons, List.map_nil, if_pos rfl]
      refine ⟨WorldWF_fsSet _ _ _
        (WorldWF_fsSet w _ _ hw (Or.inr ⟨f, {}, rfl⟩))
        (Or.inr ⟨f, tt, rfl⟩), ?_⟩
      intro dir' hd'
      rw [fsFind_fsSet_self] at hd'
      exact Or.inr ⟨tt, by injection hd' with h; exact h.symm⟩
    · rw [show (([⟨dbFileName f, false, some db⟩] : List FileEnt).any fun e =>
          decide (e.name = dbFileName f)) = true from by simp]
      simp only [if_true, List.map_cons, List.map_nil, if_pos rfl]
      rw [writeFileTable_some _ _ f tt _ (fsFind_fsSet_self w _ _)]
      simp only [List.map_cons, List.map_nil, if_pos rfl]
      refine ⟨WorldWF_fsSet _ _ _
        (WorldWF_fsSet w _ _ hw (Or.inr ⟨f, db, rfl⟩))
        (Or.inr ⟨f, tt, rfl⟩), ?_⟩
      intro dir' hd'
      rw [fsFind_fsSet_self] at hd'
      exact Or.inr ⟨tt, by injection hd' with h; exact h.symm⟩

/-- A directory that is missing, empty, or a single current-freshness file
satisfies the staleness invariant. -/
theorem staleFree_of_shape (w : World) (base t te f : GoStr)
    (h : ∀ dir', fsFind w (base, t, te) = some dir' →
      dir' = [] ∨ ∃ db, dir' = [⟨dbFileName f, false, some db⟩]) :
    staleFree w base t te f := by
  intro dir hdir
  rcases h dir hdir with h | ⟨db, h⟩
  · rw [h]
    exact ⟨by simp, by simp⟩
  · rw [h]
    constructor
    · intro e he
      rw [List.mem_singleton.mp he]
      exact ⟨rfl, fun _ => trimDb_dbFileName f⟩
    · exact le_trans (List.length_filter_le _ _) (by simp)

/-- A cache file of a different freshness is not kept by the sweep. -/
theorem keepEntry_db_stale (g f : GoStr) (db : Option CacheTable)
    (hne : g ≠ f) : keepEntry f ⟨dbFileName g, false, db⟩ = false := by
  simp only [keepEntry, decide_eq_false_iff_not]
  push_neg
  refine ⟨by simp, ?_, ?_⟩
  · exact List.suffix_append g dbSuffix
  · rw [trimDb_dbFileName]
    exact hne

/-- In a well-formed filesystem, an existing cache file means the tenant
directory is exactly that single file. -/
theorem exists_singleton (w : World) (dk : DirKey) (f : GoStr)
    (hw : WorldWF w) (hfe : fileExists w dk f = true) :
    ∃ db, fsFind w dk = some [⟨dbFileName f, false, some db⟩] := by
  unfold fileExists at hfe
  rcases ho : fsFind w dk with _ | dir
  · rw [ho] at hfe
    simp at hfe
  · rw [ho] at hfe
    rcases fsFind_mem_WF w dk dir hw ho with h | ⟨g, db, h⟩
    · rw [h] at hfe
      simp at hfe
    · rw [h] at hfe
      simp only [Option.getD_some, List.any_cons, List.any_nil,
        Bool.or_false, decide_eq_true_eq] at hfe
      have hgf : g = f := dbFileName_inj g f hfe
      subst hgf
      exact ⟨db, by rw [h]⟩

/-- If the current freshness file is absent, a lone cache file in the
directory has a different freshness. -/
theorem fileExists_false_name (w : World) (dk : DirKey) (f g : GoStr)
    (db : Option CacheTable)
    (hfe : fileExists w dk f = false)
    (ho : fsFind w dk = some [⟨dbFileName g, false, db⟩]) : g ≠ f := by
  intro hgf
  unfold fileExists at hfe
  rw [ho, hgf] at hfe
  simp at hfe

/-- When the current freshness file is absent, the fault-free sweep leaves
the tenant directory missing or empty. -/
theorem cleanup_shape_absent (cm : CacheManager) (w : World) (t te f : GoStr)
    (hw : WorldWF w)
    (hfe : fileExists w (cm.config.baseDir, t, te) f = false) :
    fsFind (cm.cleanupOldCacheFiles noFault w t te f).1.2
        (cm.config.baseDir, t, te) = none ∨
    fsFind (cm.cleanupOldCacheFiles noFault w t te f).1.2
        (cm.config.baseDir, t, te) = some [] := by
  rcases ho : fsFind w (cm.config.baseDir, t, te) with _ | dir
  · rw [cleanup_missing_dir noFault cm w t te f ho]
    exact Or.inl ho
  · right
    rw [(cleanup_dir_ok noFault cm w t te f dir ho rfl).2]
    rcases fsFind_mem_WF w _ dir hw ho with h | ⟨g, db, h⟩
    · rw [h]
      rfl
    · rw [h]
      have hne : g ≠ f := fileExists_false_name w _ f g (some db) hfe
        (by rw [ho, h])
      rw [List.filter_cons_of_neg]
      · rfl
      · rw [keepEntry_db_stale g f (some db) hne]
        simp [noFault]

/-- The sweep never changes the configuration. -/
theorem cleanup_config (flt : FsFault) (cm : CacheManager) (w : World)
    (t te cur : GoStr) :
    (cm.cleanupOldCacheFiles flt w t te cur).1.1.config = cm.config := by
  unfold CacheManager.cleanupOldCacheFiles
  dsimp only
  rcases ho : fsFind w (cm.config.baseDir, t, te) with _ | dir
  · rfl
  · by_cases hrd : flt.readDirErr = true
    · dsimp only
      simp only [hrd, if_true]
    · dsimp only
      simp only [eq_false_of_ne_true hrd, Bool.false_eq_true, if_false]

/-- `openDB` never changes the configuration. -/
theorem openDB_config (cm : CacheManager) (w : World) (t te f : GoStr) :
    (cm.openDB w t te f).1.config = cm.config := by
  unfold CacheManager.openDB
  by_cases h : CacheManager.getDBKey t te f ∈ cm.dbs
  · rw [if_pos h]
  · rw [if_neg h]

/-- `Get` on the fault-free filesystem preserves well-formedness and
establishes the staleness invariant for its tenant and freshness. -/
theorem CMGet_effect (now : Int) (cm : CacheManager) (w : World)
    (t te f b : GoStr) (hw : WorldWF w) :
    WorldWF (cm.Get noFault now w t te f b).1.2 ∧
    staleFree (cm.Get noFault now w t te f b).1.2
      cm.config.baseDir t te f := by
  unfold CacheManager.Get
  by_cases hfe : fileExists w (cm.config.baseDir, t, te) f
  · simp only [hfe, if_true]
    have hshape := exists_singleton w (cm.config.baseDir, t, te) f hw hfe
    have heff := openDB_write_effect cm w t te f
      (cacheUpdateReturning
        (fileTable (cm.openDB w t te f).2 (cm.config.baseDir, t, te) f)
        b now).2 hw (Or.inr (Or.inr hshape))
    rcases hrt : (cacheUpdateReturning
        (fileTable (cm.openDB w t te f).2 (cm.config.baseDir, t, te) f)
        b now).1 with _ | cres <;>
      simp only [hrt] <;>
      exact ⟨heff.1, staleFree_of_shape _ _ _ _ _ heff.2⟩
  · simp only [eq_false hfe, if_false]
    rcases hs : (cm.cleanupOldCacheFiles noFault w t te f).2 with _ | u <;>
      simp only [hs]
    · refine ⟨cleanup_WF noFault cm w t te f hw, ?_⟩
      refine staleFree_of_shape _ _ _ _ _ ?_
      intro dir' hd'
      rcases cleanup_shape_absent cm w t te f hw
          (eq_false_of_ne_true hfe) with h | h <;> rw [h] at hd'
      · cases hd'
      · exact Or.inl (by injection hd' with hh; exact hh.symm)
    · refine ⟨cleanup_WF noFault cm w t te f hw, ?_⟩
      refine staleFree_of_shape _ _ _ _ _ ?_
      intro dir' hd'
      rcases cleanup_shape_absent cm w t te f hw
          (eq_false_of_ne_true hfe) with h | h <;> rw [h] at hd'
      · cases hd'
      · exact Or.inl (by injection hd' with hh; exact hh.symm)

/-- `Set` on the fault-free filesystem preserves well-formedness and
establishes the staleness invariant for its tenant and freshness. -/
theorem CMSet_effect (sz : CacheTable → Nat) (now : Int)
    (cm : CacheManager) (w : World) (t te f b : GoStr) (c : Bytes)
    (hw : WorldWF w) :
    WorldWF (cm.Set noFault sz now w t te f b c).1.2 ∧
    staleFree (cm.Set noFault sz now w t te f b c).1.2
      cm.config.baseDir t te f := by
  unfold CacheManager.Set
  by_cases hfe : fileExists w (cm.config.baseDir, t, te) f
  · simp only [hfe, if_true]
    have hshape := exists_singleton w (cm.config.baseDir, t, te) f hw hfe
    have heff := openDB_write_effect cm w t te f
      (cacheInsertOrReplace
        (enforceSize (cm.openDB w t te f).1.config.maxSize
          (cm.openDB w t te f).1.config.cap
          (sz (fileTable (cm.openDB w t te f).2
            (cm.config.baseDir, t, te) f))
          (fileTable (cm.openDB w t te f).2 (cm.config.baseDir, t, te) f))
        b c now) hw (Or.inr (Or.inr hshape))
    exact ⟨heff.1, staleFree_of_shape _ _ _ _ _ heff.2⟩
  · simp only [eq_false hfe, if_false]
    rcases hs : (cm.cleanupOldCacheFiles noFault w t te f).2 with u | u
    · exact absurd (cleanup_noFault_ok cm w t te f) (by rw [hs]; intro hh; cases hh)
    · simp only [hs]
      have hw1 : WorldWF (cm.cleanupOldCacheFiles noFault w t te f).1.2 :=
        cleanup_WF noFault cm w t te f hw
      have hcfg : (cm.cleanupOldCacheFiles noFault w t te f).1.1.config =
          cm.config := cleanup_config noFault cm w t te f
      have hshape := cleanup_shape_absent cm w t te f hw
        (eq_false_of_ne_true hfe)
      have heff := openDB_write_effect
        (cm.cleanupOldCacheFiles noFault w t te f).1.1
        (cm.cleanupOldCacheFiles noFault w t te f).1.2 t te f
        (cacheInsertOrReplace
          (enforceSize
            ((cm.cleanupOldCacheFiles noFault w t te f).1.1.openDB
              (cm.cleanupOldCacheFiles noFault w t te f).1.2 t te
              f).1.config.maxSize
            ((cm.cleanupOldCacheFiles noFault w t te f).1.1.openDB
              (cm.cleanupOldCacheFiles noFault w t te f).1.2 t te
              f).1.config.cap
            (sz (fileTable
              ((cm.cleanupOldCacheFiles noFault w t te f).1.1.openDB
                (cm.cleanupOldCacheFiles noFault w t te f).1.2 t te f).2
              (cm.config.baseDir, t, te) f))
            (fileTable
              ((cm.cleanupOldCacheFiles noFault w t te f).1.1.openDB
                (cm.cleanupOldCacheFiles noFault w t te f).1.2 t te f).2
              (cm.config.baseDir, t, te) f))
          b c now) hw1 (by rw [hcfg]; exact hshape.imp (fun hh => hh) Or.inl)
      rw [hcfg] at heff
      exact ⟨heff.1, staleFree_of_shape _ _ _ _ _ heff.2⟩

/-- `Get` never changes the configuration. -/
theorem CMGet_config (flt : FsFault) (now : Int) (cm : CacheManager)
    (w : World) (t te f b : GoStr) :
    (cm.Get flt now w t te f b).1.1.config = cm.config := by
  unfold CacheManager.Get
  by_cases hfe : fileExists w (cm.config.baseDir, t, te) f
  · simp only [hfe, if_true]
    rcases hrt : (cacheUpdateReturning
        (fileTable (cm.openDB w t te f).2 (cm.config.baseDir, t, te) f)
        b now).1 with _ | cres <;>
      simp only [hrt] <;> exact openDB_config cm w t te f
  · simp only [eq_false hfe, if_false]
    rcases hs : (cm.cleanupOldCacheFiles flt w t te f).2 with _ | u <;>
      simp only [hs] <;> exact cleanup_config flt cm w t te f

/-- `Set` never changes the configuration. -/
theorem CMSet_config (flt : FsFault) (sz : CacheTable → Nat) (now : Int)
    (cm : CacheManager) (w : World) (t te f b : GoStr) (c : Bytes) :
    (cm.Set flt sz now w t te f b c).1.1.config = cm.config := by
  unfold CacheManager.Set
  by_cases hfe : fileExists w (cm.config.baseDir, t, te) f
  · simp only [hfe, if_true]
    exact openDB_config cm w t te f
  · simp only [eq_false hfe, if_false]
    rcases hs : (cm.cleanupOldCacheFiles flt w t te f).2 with _ | u <;>
      simp only [hs]
    · exact cleanup_config flt cm w t te f
    · rw [openDB_config, cleanup_config]

/-- `Delete` preserves filesystem well-formedness. -/
theorem CMDelete_WF (cm : CacheManager) (w : World) (ta : GoStr)
    (hw : WorldWF w) : WorldWF (cm.Delete w ta).1.2 := by
  intro p hp
  exact hw p (List.mem_of_mem_filter hp)

/-- The state `api.Init` leaves behind. -/
theorem api_init_state (s : ApiState) (b : GoStr) (m : Int) (cap : ℚ) :
    (api.Init s b m cap).1 =
      { s with global := some ((NewCacheManager {}).Init b m cap).1 } := by
  unfold api.Init
  dsimp only

/-- The state `api.Get` leaves behind when the manager is installed. -/
theorem api_get_state (flt : FsFault) (now : Int) (s : ApiState)
    (cm : CacheManager) (h : s.global = some cm) (t te f b : GoStr) :
    (api.Get flt now s t te f b).1 =
      ⟨some (cm.Get flt now s.w t te f b).1.1,
        (cm.Get flt now s.w t te f b).1.2⟩ := by
  unfold api.Get
  rw [h]

/-- The state `api.Set` leaves behind when the manager is installed. -/
theorem api_set_state (flt : FsFault) (sz : CacheTable → Nat) (now : Int)
    (s : ApiState) (cm : CacheManager) (h : s.global = some cm)
    (t te f b : GoStr) (c : Bytes) :
    (api.Set flt sz now s t te f b c).1 =
      ⟨some (cm.Set flt sz now s.w t te f b c).1.1,
        (cm.Set flt sz now s.w t te f b c).1.2⟩ := by
  unfold api.Set
  rw [h]

/-- The state `api.Delete` leaves behind when the manager is installed. -/
theorem api_delete_state (s : ApiState) (cm : CacheManager)
    (h : s.global = some cm) (ta : GoStr) :
    (api.Delete s ta).1 =
      ⟨some (cm.Delete s.w ta).1.1, (cm.Delete s.w ta).1.2⟩ := by
  unfold api.Delete
  rw [h]

/-- Every client call preserves filesystem well-formedness. -/
theorem apiStep_WF (s : ApiState) (op : Op) (h : WorldWF s.w) :
    WorldWF (apiStep s op).w := by
  cases op with
  | init b m c =>
    show WorldWF (api.Init s b m c).1.w
    rw [api_init_state]
    exact h
  | get now t te f b =>
    show WorldWF (api.Get noFault now s t te f b).1.w
    rcases hg : s.global with _ | cm
    · unfold api.Get
      rw [hg]
      exact h
    · rw [api_get_state noFault now s cm hg t te f b]
      exact (CMGet_effect now cm s.w t te f b h).1
  | set sz now t te f b c =>
    show WorldWF (api.Set noFault sz now s t te f b c).1.w
    rcases hg : s.global with _ | cm
    · unfold api.Set
      rw [hg]
      exact h
    · rw [api_set_state noFault sz now s cm hg t te f b c]
      exact (CMSet_effect sz now cm s.w t te f b c h).1
  | del ta =>
    show WorldWF (api.Delete s ta).1.w
    rcases hg : s.global with _ | cm
    · unfold api.Delete
      rw [hg]
      exact h
    · rw [api_delete_state s cm hg ta]
      exact CMDelete_WF cm s.w ta h

/-- Well-formedness is preserved along any client history. -/
theorem foldl_WF (ops : List Op) :
    ∀ (s : ApiState), WorldWF s.w → WorldWF (ops.foldl apiStep s).w := by
  induction ops with
  | nil => intro s h; exact h
  | cons op ops ih =>
    intro s h
    exact ih (apiStep s op) (apiStep_WF s op h)

/-- Every state reachable from the fresh process state is well-formed. -/
theorem runOps_WF (ops : List Op) : WorldWF (runOps ops).w :=
  foldl_WF ops {} (by intro p hp; cases hp)



/-- C3: in every state reachable by a sequence of client calls, after a
successful `set` — and after a successful `get` — with current freshness
`f` on `(table, tenant)`, no cache file whose name encodes a freshness
token different from `f` (compared by string equality on the trimmed file
name) remains in that tenant directory, and at most one file named `f.db`
exists there. -/
theorem claim3_staleness_invariant (ops : List Op) (sz : CacheTable → Nat)
    (now : Int) (t te f b : GoStr) (c : Bytes) :
    ((api.Set noFault sz now (runOps ops) t te f b c).2 = Except.ok () →
      ∀ cm', (api.Set noFault sz now (runOps ops) t te f b c).1.global =
          some cm' →
        staleFree (api.Set noFault sz now (runOps ops) t te f b c).1.w
          cm'.config.baseDir t te f) ∧
    (∀ cres, (api.Get noFault now (runOps ops) t te f b).2 =
        Except.ok cres →
      ∀ cm', (api.Get noFault now (runOps ops) t te f b).1.global =
          some cm' →
        staleFree (api.Get noFault now (runOps ops) t te f b).1.w
          cm'.config.baseDir t te f) := by
  have hWF := runOps_WF ops
  constructor
  · intro hok cm' hglob
    rcases hg : (runOps ops).global with _ | cm
    · unfold api.Set at hok
      rw [hg] at hok
      cases hok
    · rw [api_set_state noFault sz now _ cm hg t te f b c] at hglob
      simp only [Option.some.injEq] at hglob
      rw [api_set_state noFault sz now _ cm hg t te f b c]
      rw [← hglob, CMSet_config]
      exact (CMSet_effect sz now cm (runOps ops).w t te f b c hWF).2
  · intro cres hok cm' hglob
    rcases hg : (runOps ops).global with _ | cm
    · unfold api.Get at hok
      rw [hg] at hok
      cases hok
    · rw [api_get_state noFault now _ cm hg t te f b] at hglob
      simp only [Option.some.injEq] at hglob
      rw [api_get_state noFault now _ cm hg t te f b]
      rw [← hglob, CMGet_config]
      exact (CMGet_effect now cm (runOps ops).w t te f b hWF).2

/-- Witness for C3: after `INIT ./cache 10 0.5`, a `Set` at freshness `f1`
and a successful `Set` at freshness `f2`, the tenant directory of
`users/t1` satisfies the staleness invariant for `f2`. -/
theorem claim3_witness :
    (api.Set noFault sizeZero 2 (runOps demoOps) "users".data "t1".data
      "f2".data "k".data [66]).2 = Except.ok () ∧
    staleFree (api.Set noFault sizeZero 2 (runOps demoOps) "users".data
      "t1".data "f2".data "k".data [66]).1.w "cache".data "users".data
      "t1".data "f2".data := by
  have h := (claim3_staleness_invariant demoOps sizeZero 2 "users".data
    "t1".data "f2".data "k".data [66]).1
  have hok : (api.Set noFault sizeZero 2 (runOps demoOps) "users".data
      "t1".data "f2".data "k".data [66]).2 = Except.ok () := by decide
  have hglob : (api.Set noFault sizeZero 2 (runOps demoOps) "users".data
      "t1".data "f2".data "k".data [66]).1.global =
      some ⟨⟨"cache".data, 10, mkRat 1 2⟩, ["users:t1:f2".data]⟩ := by
    decide
  exact ⟨hok, h hok _ hglob⟩
